import Mathlib

set_option maxHeartbeats 1000000

/- Shallow embedding of the orbital prediction and simulation core of the
   ISS tracking client (`src/App.js`).  Epoch times are in milliseconds and
   modelled as `Nat` (we occasionally assume `0 < now`, since `Date.now()`
   is positive, which makes the JavaScript truthiness test on a stored
   timestamp coincide with a non-null test); angles, distances and clock
   values are exact rationals.  The browser `Math` library (trigonometry,
   square root, `Math.PI`) is abstracted as a `TrigOps` record, so theorems
   about the Haversine formula carry standard facts about those functions
   as hypotheses. -/

/-- Geographic point: latitude/longitude in degrees (the `label` field of a
target point is display-only and omitted). -/
structure GeoPoint where
  lat : ℚ
  lng : ℚ
  deriving DecidableEq

/-- Abstraction of the JavaScript `Math` functions used by
`haversineDistanceKm`, plus the constant `Math.PI`. -/
structure TrigOps where
  sin : ℚ → ℚ
  cos : ℚ → ℚ
  sqrt : ℚ → ℚ
  atan2 : ℚ → ℚ → ℚ
  pi : ℚ

/-- Source constant `PASS_LOOKAHEAD_MINUTES = 1440`. -/
def PASS_LOOKAHEAD_MINUTES : Nat := 1440

/-- Source constant `PASS_COARSE_STEP_SECONDS = 30`. -/
def PASS_COARSE_STEP_SECONDS : Nat := 30

/-- Source constant `PASS_REFINE_STEP_SECONDS = 1`. -/
def PASS_REFINE_STEP_SECONDS : Nat := 1

/-- Source constant `PASS_REFINE_WINDOW_SECONDS = 240`. -/
def PASS_REFINE_WINDOW_SECONDS : Nat := 240

/-- Source constant `PASS_THRESHOLD_COARSE_KM = 75`. -/
def PASS_THRESHOLD_COARSE_KM : ℚ := 75

/-- Source constant `PASS_THRESHOLD_DEFAULT_KM = 5`. -/
def PASS_THRESHOLD_DEFAULT_KM : ℚ := 5

/-- Source constant `SIM_STEP_SECONDS = 15`. -/
def SIM_STEP_SECONDS : Nat := 15

/-- Source constant `SIM_TIME_SCALE = 120` (1 real second is about 2
simulated minutes). -/
def SIM_TIME_SCALE : ℚ := 120

/-- `haversineDistanceKm(origin, target)`: `null` if either input is null,
otherwise the Haversine great-circle distance with Earth radius 6371 km,
computed with the abstracted `Math` operations `T`. -/
def haversineDistanceKm (T : TrigOps) : Option GeoPoint → Option GeoPoint → Option ℚ
  | none, _ => none
  | some _, none => none
  | some origin, some target =>
    let toRad : ℚ → ℚ := fun deg => deg * T.pi / 180
    let dLat := toRad (target.lat - origin.lat)
    let dLon := toRad (target.lng - origin.lng)
    let lat1 := toRad origin.lat
    let lat2 := toRad target.lat
    let a := T.sin (dLat / 2) * T.sin (dLat / 2) +
      T.sin (dLon / 2) * T.sin (dLon / 2) * T.cos lat1 * T.cos lat2
    let c := 2 * T.atan2 (T.sqrt a) (T.sqrt (1 - a))
    some (6371 * c)

/-- A JavaScript number: a finite value (modelled exactly as a rational) or
one of the non-finite values `NaN`, `Infinity`, `-Infinity`. -/
inductive JSNum where
  | finite (q : ℚ)
  | nan
  | posInf
  | negInf
  deriving DecidableEq

/-- Truncation toward zero, the rounding used by the JavaScript `%` operator. -/
def jsTrunc (q : ℚ) : ℤ := if 0 ≤ q then ⌊q⌋ else ⌈q⌉

/-- JavaScript remainder `x % 360` for finite `x` (the sign follows the
dividend, the magnitude is below 360). -/
def jsMod360 (x : ℚ) : ℚ := x - 360 * jsTrunc (x / 360)

/-- Finite-number body of `normalizeLng`: `lng % 360`, then the two boundary
corrections. -/
def normalizeLngQ (lng : ℚ) : ℚ :=
  let normalized := jsMod360 lng
  let n1 := if normalized > 180 then normalized - 360 else normalized
  if n1 < -180 then n1 + 360 else n1

/-- `normalizeLng` from the source: non-finite input is returned unchanged
(`!Number.isFinite(lng)` guard), finite input is reduced by `% 360` with
boundary corrections. -/
def normalizeLng : JSNum → JSNum
  | JSNum.finite q => JSNum.finite (normalizeLngQ q)
  | x => x

/-- Running "closest sample so far" of the pass search: the source object
`{ distance, time }`, whose initial state `{ distance: Infinity, time: null }`
is modelled as `none` at the use sites. -/
structure Best where
  distance : ℚ
  time : Nat
  deriving DecidableEq

/-- A refinement window `{ start, end }` (`end` is a Lean keyword, renamed
`stop`). -/
structure Window where
  start : Nat
  stop : Nat
  deriving DecidableEq

/-- `PassPrediction { time, distance, thresholdHit }`. -/
structure PassPrediction where
  time : Nat
  distance : ℚ
  thresholdHit : Bool
  deriving DecidableEq

/-- The distance computed by `evaluatePoint(timeMs)`: `null` when the model
`g` yields no ground point (`computeGroundPoint` returned null), otherwise
the Haversine distance from the longitude-normalized ground point to the
target. -/
def evalDist (T : TrigOps) (g : Nat → Option GeoPoint) (target : GeoPoint)
    (t : Nat) : Option ℚ :=
  match g t with
  | none => none
  | some gp => haversineDistanceKm T (some ⟨gp.lat, normalizeLngQ gp.lng⟩) (some target)

/-- `if (dist != null && dist < best.distance) best = { distance: dist, time }`
(strict comparison, so the earliest sample wins ties; `none` is the initial
`distance: Infinity` state). -/
def updateBest (best : Option Best) (d : ℚ) (t : Nat) : Option Best :=
  match best with
  | none => some ⟨d, t⟩
  | some b => if d < b.distance then some ⟨d, t⟩ else some b

/-- Refinement window around a coarse hit at `t`:
`{ start: Math.max(now, t - refineWindowMs), end: Math.min(end, t + refineWindowMs) }`
(truncated `Nat` subtraction agrees with the real-valued `Math.max` since
`now ≥ 0`). -/
def refineWindowFor (now endT t : Nat) : Window :=
  ⟨max now (t - PASS_REFINE_WINDOW_SECONDS * 1000),
   min endT (t + PASS_REFINE_WINDOW_SECONDS * 1000)⟩

/-- Coarse scan `for (let t = now; t <= end; t += coarseStepMs)`: tracks the
global best sample and stops at the first sample within the coarse
threshold, returning the refinement window.  The loop is fuelled; the
caller passes enough fuel to cover the whole lookahead window. -/
def coarseLoop (T : TrigOps) (g : Nat → Option GeoPoint) (target : GeoPoint)
    (now endT : Nat) : Nat → Nat → Option Best → Option Best × Option Window
  | 0, _, best => (best, none)
  | fuel + 1, t, best =>
    if t ≤ endT then
      match evalDist T g target t with
      | none => coarseLoop T g target now endT fuel (t + PASS_COARSE_STEP_SECONDS * 1000) best
      | some d =>
        let best1 := updateBest best d t
        if d ≤ PASS_THRESHOLD_COARSE_KM then (best1, some (refineWindowFor now endT t))
        else coarseLoop T g target now endT fuel (t + PASS_COARSE_STEP_SECONDS * 1000) best1
    else (best, none)

/-- Fine scan `for (let t = refineWindow.start; t <= refineWindow.end; t += refineStepMs)`:
`Sum.inr` is the early return of a qualifying sample (`thresholdHit: true`),
`Sum.inl` the final pair of (global best, best refined sample) when the loop
runs to completion. -/
def refineLoop (T : TrigOps) (g : Nat → Option GeoPoint) (target : GeoPoint)
    (passThresholdKm : ℚ) (endR : Nat) : Nat → Nat → Option Best → Option Best →
    (Option Best × Option Best) ⊕ PassPrediction
  | 0, _, best, bestRefined => Sum.inl (best, bestRefined)
  | fuel + 1, t, best, bestRefined =>
    if t ≤ endR then
      match evalDist T g target t with
      | none =>
        refineLoop T g target passThresholdKm endR fuel
          (t + PASS_REFINE_STEP_SECONDS * 1000) best bestRefined
      | some d =>
        let best1 := updateBest best d t
        let bestRefined1 := updateBest bestRefined d t
        if d ≤ passThresholdKm then Sum.inr ⟨t, d, true⟩
        else
          refineLoop T g target passThresholdKm endR fuel
            (t + PASS_REFINE_STEP_SECONDS * 1000) best1 bestRefined1
    else Sum.inl (best, bestRefined)

/-- The final `if (best.time) ... else setNextPassPrediction(null)` branch:
the truthiness test on `best.time` is false both for `null` (here `none`)
and for the timestamp `0`. -/
def fallbackPrediction : Option Best → Option PassPrediction
  | none => none
  | some b => if b.time = 0 then none else some ⟨b.time, b.distance, false⟩

/-- Body of the `nextPassPrediction` effect with model and target present:
coarse scan over the 24 h lookahead window, optional 1 s refinement around
the first coarse hit, and the fallback to the globally closest sample. -/
def nextPassPrediction (T : TrigOps) (g : Nat → Option GeoPoint) (target : GeoPoint)
    (passThresholdKm : ℚ) (now : Nat) : Option PassPrediction :=
  let endT := now + PASS_LOOKAHEAD_MINUTES * 60 * 1000
  let coarseFuel := PASS_LOOKAHEAD_MINUTES * 60 * 1000 / (PASS_COARSE_STEP_SECONDS * 1000) + 1
  match coarseLoop T g target now endT coarseFuel now none with
  | (best, none) => fallbackPrediction best
  | (best, some w) =>
    let refineFuel := 2 * PASS_REFINE_WINDOW_SECONDS + 1
    match refineLoop T g target passThresholdKm w.stop refineFuel w.start best none with
    | Sum.inr p => some p
    | Sum.inl (best1, some br) =>
      if br.time = 0 then fallbackPrediction best1
      else some ⟨br.time, br.distance, decide (br.distance ≤ passThresholdKm)⟩
    | Sum.inl (best1, none) => fallbackPrediction best1

/-- One sample of the simulated ground track; the start and exact-pass-time
samples carry no distance (`none`: the source omits the field there). -/
structure Sample where
  lat : ℚ
  lng : ℚ
  time : Nat
  distance : Option ℚ
  deriving DecidableEq

/-- Default `Sample` used with `List.headD` and `List.getLastD` (the source
indexes `path[0]` / `path[path.length - 1]` only when the path is
non-empty, so the default is never observed). -/
def sampleDflt : Sample := ⟨0, 0, 0, none⟩

/-- Path-builder loop `for (let t = now + stepMs; t <= end + stepMs; t += stepMs)`
with the break once a sample is within the pass threshold (the sample is
pushed before the break test). -/
def simLoop (T : TrigOps) (g : Nat → Option GeoPoint) (target : GeoPoint)
    (passThresholdKm : ℚ) (endT : Nat) : Nat → Nat → List Sample → List Sample
  | 0, _, path => path
  | fuel + 1, t, path =>
    if t ≤ endT + SIM_STEP_SECONDS * 1000 then
      match g t with
      | none => simLoop T g target passThresholdKm endT fuel (t + SIM_STEP_SECONDS * 1000) path
      | some gp =>
        let ground : GeoPoint := ⟨gp.lat, normalizeLngQ gp.lng⟩
        let dist := haversineDistanceKm T (some ground) (some target)
        let path1 := path ++ [⟨ground.lat, ground.lng, t, dist⟩]
        match dist with
        | some dv =>
          if dv ≤ passThresholdKm then path1
          else simLoop T g target passThresholdKm endT fuel (t + SIM_STEP_SECONDS * 1000) path1
        | none => simLoop T g target passThresholdKm endT fuel (t + SIM_STEP_SECONDS * 1000) path1
    else path

/-- The `simulationPath` memo with model and target present: null without a
truthy prediction time or when the pass is not in the future; otherwise the
sampled track (the unnormalized start point at `now` when propagation
succeeds there, the loop samples, and the appended exact-pass-time sample
when the last sample lags it), `null` when fewer than 2 samples result. -/
def simulationPath (T : TrigOps) (g : Nat → Option GeoPoint) (target : GeoPoint)
    (passThresholdKm : ℚ) (pred : Option PassPrediction) (now : Nat) :
    Option (List Sample) :=
  match pred with
  | none => none
  | some p =>
    if p.time = 0 then none
    else if p.time ≤ now then none
    else
      let stepMs := SIM_STEP_SECONDS * 1000
      let path0 : List Sample :=
        match g now with
        | some sp => [⟨sp.lat, sp.lng, now, none⟩]
        | none => []
      let fuel := (p.time - now) / stepMs + 1
      let path1 := simLoop T g target passThresholdKm p.time fuel (now + stepMs) path0
      if path1.length < 2 then none
      else
        let lastPoint := path1.getLastD sampleDflt
        if lastPoint.time < p.time then
          match g p.time with
          | some fp => some (path1 ++ [⟨fp.lat, normalizeLngQ fp.lng, p.time, none⟩])
          | none => some path1
        else some path1

/-- Accumulator loop of `simulationSegments` (the `forEach` over the path):
`current` is the growing run of `[lat, lng]` coordinates, `segments` the
finished runs.  A longitude jump over 180° pushes the current run if it has
more than one point (otherwise it is dropped) and starts a new run; the
trailing run is pushed under the same length condition. -/
def segGo : List Sample → List (ℚ × ℚ) → List (List (ℚ × ℚ)) → List (List (ℚ × ℚ))
  | [], current, segments => if 1 < current.length then segments ++ [current] else segments
  | point :: rest, [], segments => segGo rest [(point.lat, point.lng)] segments
  | point :: rest, c :: cs, segments =>
    let prev := (c :: cs).getLast (List.cons_ne_nil c cs)
    if 180 < |point.lng - prev.2| then
      if 1 < (c :: cs).length then segGo rest [(point.lat, point.lng)] (segments ++ [c :: cs])
      else segGo rest [(point.lat, point.lng)] segments
    else segGo rest ((c :: cs) ++ [(point.lat, point.lng)]) segments

/-- The `simulationSegments` memo: splits the path at antimeridian jumps
(consecutive longitude difference above 180°) and returns `null` when the
path is null/empty or no run of length ≥ 2 remains
(`segments.length ? segments : null`). -/
def simulationSegments (path : Option (List Sample)) : Option (List (List (ℚ × ℚ))) :=
  match path with
  | none => none
  | some [] => none
  | some samples =>
    let segments := segGo samples [] []
    if segments.isEmpty then none else some segments

/-- One animation frame of the `requestAnimationFrame` effect: advance the
simulated clock by `delta * speedFactor`, clamping at `endTime` and
stopping playback there (`next >= endTime` branch of the `step` callback). -/
def rafStep (endTime speedFactor current delta : ℚ) : ℚ × Bool :=
  let next := current + delta * speedFactor
  if endTime ≤ next then (endTime, false) else (next, true)

/-- Folds `rafStep` over the frame-to-frame elapsed real times, stopping as
soon as the clock is clamped (the source sets `running = false` and stops
scheduling frames). -/
def rafRun (endTime speedFactor : ℚ) : ℚ → List ℚ → ℚ × Bool
  | current, [] => (current, true)
  | current, delta :: deltas =>
    match rafStep endTime speedFactor current delta with
    | (next, true) => rafRun endTime speedFactor next deltas
    | (next, false) => (next, false)

/-- `handleSimReset`: a no-op without an available path
(`!simulationAvailable`), otherwise stop playback and return the clock to
the first sample's timestamp. -/
def handleSimReset (path : Option (List Sample)) (isSimPlaying : Bool)
    (simTimeMs : Option ℚ) : Bool × Option ℚ :=
  match path with
  | some (s :: _) => (false, some (s.time : ℚ))
  | _ => (isSimPlaying, simTimeMs)

/-- The telemetry JSON fields actually read by `fetchIssData`. -/
structure IssTelemetry where
  latitude : ℚ
  longitude : ℚ
  timestamp : Nat
  velocity : ℚ
  deriving DecidableEq

/-- Satellite position state (`issPosition`). -/
structure SatPos where
  lat : ℚ
  lng : ℚ
  timestamp : Nat
  velocityKmh : Option ℚ
  deriving DecidableEq

/-- Outcome of one live-telemetry fetch: a parsed body, or a failure — a
non-2xx response (the explicit `throw`) or any thrown error, both landing
in the `catch` block. -/
inductive FetchOutcome where
  | success (data : IssTelemetry)
  | failure (message : String)

/-- `Array.prototype.slice(-120)`: keep the last 120 elements. -/
def takeLast (n : Nat) (l : List SatPos) : List SatPos := l.drop (l.length - n)

/-- One run of `fetchIssData`, as a transformer of the observable state
`(issPosition, issHistory, error)`; `cancelled` is the teardown flag. -/
def fetchIssData (outcome : FetchOutcome) (cancelled : Bool)
    (st : Option SatPos × List SatPos × Option String) :
    Option SatPos × List SatPos × Option String :=
  match outcome with
  | FetchOutcome.success data =>
    if cancelled then st
    else
      let position : SatPos :=
        ⟨data.latitude, data.longitude, data.timestamp * 1000, some data.velocity⟩
      (some position, takeLast 120 (st.2.1 ++ [position]), none)
  | FetchOutcome.failure message =>
    if cancelled then st else (st.1, st.2.1, some message)

/-- Specification predicate: the instants visited by the coarse scan started
at `now` (every 30 s across the 24 h lookahead window). -/
def CoarseSampled (now u : Nat) : Prop :=
  now ≤ u ∧ u ≤ now + PASS_LOOKAHEAD_MINUTES * 60 * 1000 ∧
    (u - now) % (PASS_COARSE_STEP_SECONDS * 1000) = 0

/-- Specification predicate: the instants visited by the fine scan over
window `w` (every 1 s). -/
def RefineSampled (w : Window) (u : Nat) : Prop :=
  w.start ≤ u ∧ u ≤ w.stop ∧ (u - w.start) % (PASS_REFINE_STEP_SECONDS * 1000) = 0

/-- Specification predicate: `u` is the first coarse sample whose distance
is within the coarse detection threshold. -/
def FirstCoarseHit (T : TrigOps) (g : Nat → Option GeoPoint) (target : GeoPoint)
    (now u : Nat) : Prop :=
  CoarseSampled now u ∧
    (∃ d, evalDist T g target u = some d ∧ d ≤ PASS_THRESHOLD_COARSE_KM) ∧
    ∀ v d, CoarseSampled now v → v < u → evalDist T g target v = some d →
      PASS_THRESHOLD_COARSE_KM < d

/-- No consecutive pair of path samples jumps by more than 180° of
longitude. -/
def jumpFree (samples : List Sample) : Prop :=
  List.Chain' (fun a b : Sample => |b.lng - a.lng| ≤ 180) samples

/-- No consecutive pair of emitted coordinates jumps by more than 180° of
longitude. -/
def jumpFreeC (l : List (ℚ × ℚ)) : Prop :=
  List.Chain' (fun a b : ℚ × ℚ => |b.2 - a.2| ≤ 180) l

/-- The `[lat, lng]` pair emitted for a path sample. -/
def sampleCoords (s : Sample) : ℚ × ℚ := (s.lat, s.lng)

/-- Times visited by a step-`step` loop bounded by `endT`: reference list
used to state properties of the fuelled scans. -/
def sampleTimes (step endT : Nat) : Nat → Nat → List Nat
  | 0, _ => []
  | fuel + 1, t => if t ≤ endT then t :: sampleTimes step endT fuel (t + step) else []

/-- Reference fold describing how a scan accumulates its best sample over a
list of visited times. -/
def bestFold (T : TrigOps) (g : Nat → Option GeoPoint) (target : GeoPoint)
    (l : List Nat) (b : Option Best) : Option Best :=
  l.foldl (fun acc u =>
    match evalDist T g target u with
    | none => acc
    | some d => updateBest acc d u) b

/-- Degenerate but admissible `Math` implementation: identically-zero `sin`,
`cos`, `sqrt`, and `atan2` constantly `1/100`, making every computed
Haversine distance `6371/50` (about 127.42 km). -/
def trigConst100 : TrigOps := ⟨fun _ => 0, fun _ => 0, fun _ => 0, fun _ _ => 1 / 100, 3⟩

/-- `Math` implementation with `atan2` constantly `1/12742`, making every
computed Haversine distance 1 km. -/
def trigConstHit : TrigOps := ⟨fun _ => 0, fun _ => 0, fun _ => 0, fun _ _ => 1 / 12742, 3⟩

/-- `Math` implementation used for the Haversine witness: zero trig,
identity square root, zero `atan2`. -/
def trigZeroAt : TrigOps := ⟨fun _ => 0, fun _ => 0, fun q => q, fun _ _ => 0, 3⟩

/-- Orbital model that always yields the ground point (0°, 0°). -/
def groundConst : Nat → Option GeoPoint := fun _ => some ⟨0, 0⟩

/-- Orbital model whose propagation succeeds only at the instants 16000 ms
and 31000 ms (everywhere else `computeGroundPoint` returns null). -/
def groundTwoOnly : Nat → Option GeoPoint := fun t =>
  if t = 16000 then some ⟨0, 0⟩ else if t = 31000 then some ⟨0, 0⟩ else none

/-- The target point (0°, 0°). -/
def targetOrigin : GeoPoint := ⟨0, 0⟩


theorem jsTrunc_eq_zero {q : ℚ} (h1 : -1 < q) (h2 : q < 1) : jsTrunc q = 0 := by
  unfold jsTrunc
  split_ifs with h
  · rw [Int.floor_eq_zero_iff]
    exact ⟨h, h2⟩
  · rw [Int.ceil_eq_zero_iff]
    exact ⟨h1, le_of_not_le h⟩

theorem jsMod360_bounds (x : ℚ) : -360 < jsMod360 x ∧ jsMod360 x < 360 := by
  unfold jsMod360 jsTrunc
  split_ifs with h
  · have h1 : (⌊x / 360⌋ : ℚ) ≤ x / 360 := Int.floor_le _
    have h2 : x / 360 < ⌊x / 360⌋ + 1 := Int.lt_floor_add_one _
    constructor <;> linarith
  · have h1 : (x / 360 : ℚ) ≤ ⌈x / 360⌉ := Int.le_ceil _
    have h2 : (⌈x / 360⌉ : ℚ) < x / 360 + 1 := Int.ceil_lt_add_one _
    constructor <;> linarith

theorem jsMod360_eq_self {x : ℚ} (h1 : -360 < x) (h2 : x < 360) : jsMod360 x = x := by
  have h0 : jsTrunc (x / 360) = 0 := jsTrunc_eq_zero (by linarith) (by linarith)
  rw [jsMod360, h0]
  push_cast
  ring

theorem normalizeLngQ_bounds (q : ℚ) : -180 ≤ normalizeLngQ q ∧ normalizeLngQ q ≤ 180 := by
  obtain ⟨hl, hu⟩ := jsMod360_bounds q
  simp only [normalizeLngQ]
  split_ifs <;> constructor <;> linarith

theorem normalizeLngQ_eq_self {q : ℚ} (h1 : -180 ≤ q) (h2 : q ≤ 180) : normalizeLngQ q = q := by
  have hm : jsMod360 q = q := jsMod360_eq_self (by linarith) (by linarith)
  simp only [normalizeLngQ, hm]
  split_ifs <;> first | rfl | linarith

theorem normalizeLngQ_idem (q : ℚ) : normalizeLngQ (normalizeLngQ q) = normalizeLngQ q :=
  normalizeLngQ_eq_self (normalizeLngQ_bounds q).1 (normalizeLngQ_bounds q).2

/-- C3 (amended): for every finite number the result of `normalizeLng` lies
in the closed interval [-180, 180] (the open-left bound of the claim fails:
-180 is returned unchanged), `normalizeLng` is idempotent, and every
non-finite input is returned unchanged. -/
theorem claim_C3 :
    (∀ q : ℚ, -180 ≤ normalizeLngQ q ∧ normalizeLngQ q ≤ 180) ∧
    (∀ x : JSNum, normalizeLng (normalizeLng x) = normalizeLng x) ∧
    normalizeLng JSNum.nan = JSNum.nan ∧
    normalizeLng JSNum.posInf = JSNum.posInf ∧
    normalizeLng JSNum.negInf = JSNum.negInf := by
  refine ⟨normalizeLngQ_bounds, ?_, rfl, rfl, rfl⟩
  intro x
  cases x with
  | finite q => simp [normalizeLng, normalizeLngQ_idem]
  | nan => rfl
  | posInf => rfl
  | negInf => rfl

/-- C3 counterexample: `normalizeLng(-180)` returns -180, which is not in
the half-open interval (-180, 180] stated by the claim. -/
theorem claim_C3_counterexample :
    normalizeLng (JSNum.finite (-180)) = JSNum.finite (-180) ∧
    ¬ (-180 < normalizeLngQ (-180)) := by
  have h : normalizeLngQ (-180) = -180 := normalizeLngQ_eq_self (by norm_num) (by norm_num)
  exact ⟨by simp [normalizeLng, h], by rw [h]; exact lt_irrefl _⟩

/-- C9: with the standard properties of the `Math` functions (odd sine,
`sqrt 0 = 0`, `sqrt 1 = 1`, `atan2 0 y = 0` for positive `y`), the Haversine
distance is symmetric, zero on coincident points, and `null` when either
argument is null. -/
theorem claim_C9 (T : TrigOps) (hsin : ∀ x, T.sin (-x) = -T.sin x)
    (hsqrt0 : T.sqrt 0 = 0) (hsqrt1 : T.sqrt 1 = 1)
    (hatan : ∀ y, 0 < y → T.atan2 0 y = 0) :
    (∀ a b : GeoPoint,
      haversineDistanceKm T (some a) (some b) = haversineDistanceKm T (some b) (some a)) ∧
    (∀ a : GeoPoint, haversineDistanceKm T (some a) (some a) = some 0) ∧
    (∀ o : Option GeoPoint,
      haversineDistanceKm T none o = none ∧ haversineDistanceKm T o none = none) := by
  have hs2 : ∀ x y : ℚ, x = -y → T.sin x * T.sin x = T.sin y * T.sin y := by
    intro x y h
    rw [h, hsin]
    ring
  refine ⟨?_, ?_, ?_⟩
  · intro a b
    simp only [haversineDistanceKm, Option.some.injEq]
    have ha : T.sin ((b.lat - a.lat) * T.pi / 180 / 2) * T.sin ((b.lat - a.lat) * T.pi / 180 / 2) +
        T.sin ((b.lng - a.lng) * T.pi / 180 / 2) * T.sin ((b.lng - a.lng) * T.pi / 180 / 2) *
          T.cos (a.lat * T.pi / 180) * T.cos (b.lat * T.pi / 180) =
        T.sin ((a.lat - b.lat) * T.pi / 180 / 2) * T.sin ((a.lat - b.lat) * T.pi / 180 / 2) +
        T.sin ((a.lng - b.lng) * T.pi / 180 / 2) * T.sin ((a.lng - b.lng) * T.pi / 180 / 2) *
          T.cos (b.lat * T.pi / 180) * T.cos (a.lat * T.pi / 180) := by
      rw [hs2 ((a.lat - b.lat) * T.pi / 180 / 2) ((b.lat - a.lat) * T.pi / 180 / 2) (by ring),
        hs2 ((a.lng - b.lng) * T.pi / 180 / 2) ((b.lng - a.lng) * T.pi / 180 / 2) (by ring)]
      ring
    rw [ha]
  · intro a
    simp only [haversineDistanceKm, Option.some.injEq]
    have hs0 : T.sin 0 = 0 := by
      have h := hsin 0
      rw [neg_zero] at h
      linarith
    rw [show (a.lat - a.lat) * T.pi / 180 / 2 = 0 from by ring,
      show (a.lng - a.lng) * T.pi / 180 / 2 = 0 from by ring, hs0,
      show (0 : ℚ) * 0 + 0 * 0 * T.cos (a.lat * T.pi / 180) * T.cos (a.lat * T.pi / 180) = 0
        from by ring,
      show (1 : ℚ) - 0 = 1 from by norm_num, hsqrt0, hsqrt1, hatan 1 one_pos]
    ring
  · intro o
    cases o <;> exact ⟨rfl, rfl⟩

/-- C9 witness: the symmetry and identity theorem applied at concrete points
with an admissible `Math` implementation. -/
theorem claim_C9_witness :
    haversineDistanceKm trigZeroAt (some ⟨1, 2⟩) (some ⟨3, 4⟩) =
      haversineDistanceKm trigZeroAt (some ⟨3, 4⟩) (some ⟨1, 2⟩) ∧
    haversineDistanceKm trigZeroAt (some ⟨1, 2⟩) (some ⟨1, 2⟩) = some 0 := by
  have h := claim_C9 trigZeroAt (fun x => by simp [trigZeroAt]) rfl rfl (fun y _ => rfl)
  exact ⟨h.1 ⟨1, 2⟩ ⟨3, 4⟩, h.2.1 ⟨1, 2⟩⟩

/-- C8: for every failed live-telemetry fetch (non-2xx response or thrown
error both end in the `catch` block), the satellite position and the
position history are left unchanged; only the error message is updated. -/
theorem claim_C8 (message : String) (cancelled : Bool)
    (st : Option SatPos × List SatPos × Option String) :
    (fetchIssData (FetchOutcome.failure message) cancelled st).1 = st.1 ∧
    (fetchIssData (FetchOutcome.failure message) cancelled st).2.1 = st.2.1 := by
  cases cancelled <;> simp [fetchIssData]

theorem segGo_length (rest : List Sample) : ∀ (current : List (ℚ × ℚ)) segments,
    (∀ s ∈ segments, 2 ≤ s.length) → ∀ s ∈ segGo rest current segments, 2 ≤ s.length := by
  induction rest with
  | nil =>
    intro current segments hseg s hs
    simp only [segGo] at hs
    split_ifs at hs with h
    · rcases List.mem_append.mp hs with h1 | h1
      · exact hseg s h1
      · simp only [List.mem_singleton] at h1
        subst h1
        omega
    · exact hseg s hs
  | cons point rest ih =>
    intro current segments hseg s hs
    match current with
    | [] =>
      simp only [segGo] at hs
      exact ih _ _ hseg s hs
    | c :: cs =>
      simp only [segGo] at hs
      split_ifs at hs with h1 h2
      · refine ih _ _ ?_ s hs
        intro s1 hs1
        rcases List.mem_append.mp hs1 with h3 | h3
        · exact hseg s1 h3
        · simp only [List.mem_singleton] at h3
          subst h3
          simpa using h2
      · exact ih _ _ hseg s hs
      · exact ih _ _ hseg s hs

/-- C10: the polyline segmentation is either null or a non-empty list of
segments each containing at least 2 points (single-point runs are dropped,
and when nothing remains the result is null rather than an empty list). -/
theorem claim_C10 (path : Option (List Sample)) :
    simulationSegments path = none ∨
    ∃ segs, simulationSegments path = some segs ∧ segs ≠ [] ∧
      ∀ s ∈ segs, 2 ≤ s.length := by
  match path with
  | none => exact Or.inl rfl
  | some [] => exact Or.inl rfl
  | some (s :: rest) =>
    simp only [simulationSegments]
    split_ifs with h
    · exact Or.inl rfl
    · refine Or.inr ⟨_, rfl, ?_, segGo_length _ _ _ (by simp)⟩
      intro he
      rw [he] at h
      exact h rfl

theorem segGo_run (rest : List Sample) : ∀ (current : List (ℚ × ℚ)) segments,
    current ≠ [] → jumpFreeC (current ++ rest.map sampleCoords) →
    segGo rest current segments =
      if 1 < (current ++ rest.map sampleCoords).length then
        segments ++ [current ++ rest.map sampleCoords]
      else segments := by
  induction rest with
  | nil =>
    intro current segments hne hj
    simp [segGo]
  | cons point rest ih =>
    intro current segments hne hj
    match current, hne with
    | c :: cs, _ =>
      have hmap : (point :: rest).map sampleCoords = (point.lat, point.lng) :: rest.map sampleCoords := by
        simp [sampleCoords]
      rw [hmap] at hj
      have hrel : |point.lng - ((c :: cs).getLast (List.cons_ne_nil c cs)).2| ≤ 180 := by
        rcases (List.chain'_append.mp hj) with ⟨_, _, hlink⟩
        have := hlink ((c :: cs).getLast (List.cons_ne_nil c cs))
          (by rw [List.getLast?_eq_getLast _ (List.cons_ne_nil c cs)]; rfl)
          (point.lat, point.lng) rfl
        simpa using this
      simp only [segGo]
      rw [if_neg (not_lt.mpr hrel)]
      have hj1 : jumpFreeC ((c :: cs ++ [(point.lat, point.lng)]) ++ rest.map sampleCoords) := by
        rw [List.append_assoc, List.singleton_append]
        exact hj
      rw [ih (c :: cs ++ [(point.lat, point.lng)]) segments (by simp) hj1]
      rw [List.append_assoc, List.singleton_append, hmap]

theorem segGo_out (rest : List Sample) : ∀ (current : List (ℚ × ℚ)) segments,
    (∀ s ∈ segments, jumpFreeC s) → jumpFreeC current →
    ∀ s ∈ segGo rest current segments, jumpFreeC s := by
  induction rest with
  | nil =>
    intro current segments hseg hcur s hs
    simp only [segGo] at hs
    split_ifs at hs with h
    · rcases List.mem_append.mp hs with h1 | h1
      · exact hseg s h1
      · simp only [List.mem_singleton] at h1
        subst h1
        exact hcur
    · exact hseg s hs
  | cons point rest ih =>
    intro current segments hseg hcur s hs
    match current with
    | [] =>
      simp only [segGo] at hs
      exact ih _ _ hseg (List.chain'_singleton _) s hs
    | c :: cs =>
      simp only [segGo] at hs
      split_ifs at hs with h1 h2
      · refine ih _ _ ?_ (List.chain'_singleton _) s hs
        intro s1 hs1
        rcases List.mem_append.mp hs1 with h3 | h3
        · exact hseg s1 h3
        · simp only [List.mem_singleton] at h3
          subst h3
          exact hcur
      · exact ih _ _ hseg (List.chain'_singleton _) s hs
      · refine ih _ _ hseg ?_ s hs
        refine List.chain'_append.mpr ⟨hcur, List.chain'_singleton _, ?_⟩
        intro x hx y hy
        rw [List.getLast?_eq_getLast _ (List.cons_ne_nil c cs), Option.mem_def,
          Option.some.injEq] at hx
        simp only [List.head?_cons, Option.mem_def, Option.some.injEq] at hy
        subst hx
        subst hy
        simpa using not_lt.mp h1

/-- C2 (amended): for a path with at least 2 samples, the segmentation is
the single segment holding the whole path exactly when no consecutive pair
of longitudes jumps by more than 180°; with such a jump the path is split
(and single-point runs dropped), so the whole path is never returned as one
segment — but the claim's "more than one segment" can fail, since the
result may be a single shorter segment or null. -/
theorem claim_C2 (samples : List Sample) (h2 : 2 ≤ samples.length) :
    (jumpFree samples ↔
      simulationSegments (some samples) = some [samples.map sampleCoords]) := by
  match samples, h2 with
  | s :: rest, h2 =>
    have hmapchain : jumpFree (s :: rest) ↔ jumpFreeC ((s :: rest).map sampleCoords) := by
      rw [jumpFree, jumpFreeC, List.chain'_map]
      constructor <;> intro h <;> simpa [sampleCoords] using h
    constructor
    · intro hj
      have hjc : jumpFreeC ((sampleCoords s) :: rest.map sampleCoords) := by
        have := hmapchain.mp hj
        simpa using this
      simp only [simulationSegments, segGo]
      rw [show ((s.lat, s.lng) : ℚ × ℚ) = sampleCoords s from rfl]
      rw [segGo_run rest [sampleCoords s] [] (by simp) (by simpa using hjc)]
      have hlen : 1 < ([sampleCoords s] ++ rest.map sampleCoords).length := by
        simp only [List.length_append, List.length_map, List.length_singleton]
        have : 2 ≤ (s :: rest).length := h2
        simp only [List.length_cons] at this
        omega
      rw [if_pos hlen]
      simp
    · intro he
      simp only [simulationSegments] at he
      by_cases h : (segGo (s :: rest) [] []).isEmpty
      · rw [if_pos h] at he
        exact absurd he (by simp)
      · rw [if_neg h, Option.some.injEq] at he
        have hin : (s :: rest).map sampleCoords ∈ segGo (s :: rest) [] [] := by
          rw [he]
          simp
        have hjc := segGo_out (s :: rest) [] [] (by simp) (List.chain'_nil) _ hin
        exact hmapchain.mpr hjc

/-- C2 witness: a jump-free two-sample path yields exactly one segment,
namely the whole path. -/
theorem claim_C2_witness :
    simulationSegments (some [⟨1, 10, 0, none⟩, ⟨2, 20, 1000, none⟩]) =
      some [[(1, 10), (2, 20)]] := by
  have h := (claim_C2 [⟨1, 10, 0, none⟩, ⟨2, 20, 1000, none⟩] (by norm_num)).mp
    (by simp [jumpFree]; norm_num)
  simpa [sampleCoords] using h

/-- C2 counterexample: a 2-sample path whose single consecutive pair jumps
by 340° > 180° produces `null` (zero segments), not more than one segment. -/
theorem claim_C2_counterexample :
    ¬ jumpFree [⟨0, 170, 0, none⟩, ⟨0, -170, 1000, none⟩] ∧
    simulationSegments (some [⟨0, 170, 0, none⟩, ⟨0, -170, 1000, none⟩]) = none := by
  constructor
  · intro h
    rw [jumpFree, List.chain'_cons] at h
    have := h.1
    norm_num at this
  · norm_num [simulationSegments, segGo]

theorem rafRun_cons (endTime f current d : ℚ) (ds : List ℚ) :
    rafRun endTime f current (d :: ds) =
      if endTime ≤ current + d * f then (endTime, false)
      else rafRun endTime f (current + d * f) ds := by
  simp only [rafRun, rafStep]
  split_ifs <;> rfl

theorem rafRun_spec (endTime f : ℚ) (hf : 0 ≤ f) :
    ∀ (deltas : List ℚ) (current : ℚ), (∀ d ∈ deltas, 0 ≤ d) → current < endTime →
    rafRun endTime f current deltas =
      (min (current + deltas.sum * f) endTime,
        decide (current + deltas.sum * f < endTime)) := by
  intro deltas
  induction deltas with
  | nil =>
    intro current _ hc
    simp only [rafRun, List.sum_nil, zero_mul, add_zero]
    rw [min_eq_left hc.le, decide_eq_true hc]
  | cons d ds ih =>
    intro current hd hc
    have hds : ∀ x ∈ ds, 0 ≤ x := fun x hx => hd x (by simp [hx])
    have hsum : 0 ≤ ds.sum := List.sum_nonneg hds
    have hsf : 0 ≤ ds.sum * f := mul_nonneg hsum hf
    rw [rafRun_cons, List.sum_cons,
      show current + (d + ds.sum) * f = current + d * f + ds.sum * f from by ring]
    split_ifs with h
    · have h3 : endTime ≤ current + d * f + ds.sum * f := le_trans h (by linarith)
      rw [min_eq_right h3, decide_eq_false (not_lt.mpr h3)]
    · rw [ih (current + d * f) hds (lt_of_not_le h)]

/-- C7: while playing, after real elapsed frame deltas summing to
`elapsedRealMs` at multiplier `m`, the simulated clock is
`start + elapsedRealMs * (SIM_TIME_SCALE * m)` clamped to the final
sample's timestamp, and playback is auto-stopped exactly when the clamp is
reached; `handleSimReset` returns the clock to `path[0].time` with playback
stopped. -/
theorem claim_C7 (path : List Sample) (m start : ℚ) (deltas : List ℚ)
    (isSimPlaying : Bool) (simTimeMs : Option ℚ)
    (hne : path ≠ []) (hm : 0 ≤ m) (hd : ∀ d ∈ deltas, 0 ≤ d)
    (hstart : start < ((path.getLastD sampleDflt).time : ℚ)) :
    rafRun ((path.getLastD sampleDflt).time : ℚ) (SIM_TIME_SCALE * m) start deltas =
      (min (start + deltas.sum * (SIM_TIME_SCALE * m)) ((path.getLastD sampleDflt).time : ℚ),
        decide (start + deltas.sum * (SIM_TIME_SCALE * m) <
          ((path.getLastD sampleDflt).time : ℚ))) ∧
    handleSimReset (some path) isSimPlaying simTimeMs =
      (false, some ((path.headD sampleDflt).time : ℚ)) := by
  refine ⟨rafRun_spec _ _ (mul_nonneg (by norm_num [SIM_TIME_SCALE]) hm) deltas start hd hstart,
    ?_⟩
  match path, hne with
  | s :: rest, _ => rfl

/-- C7 witness: the playback theorem applied to a concrete two-sample path,
multiplier 8, and two frames of 16 ms and 17 ms. -/
theorem claim_C7_witness :
    rafRun 1000000 (SIM_TIME_SCALE * 8) 0 [16, 17] =
      (min (0 + ([16, 17] : List ℚ).sum * (SIM_TIME_SCALE * 8)) 1000000,
        decide (0 + ([16, 17] : List ℚ).sum * (SIM_TIME_SCALE * 8) < 1000000)) ∧
    handleSimReset (some [⟨0, 0, 0, none⟩, ⟨0, 0, 1000000, none⟩]) true none =
      (false, some 0) := by
  have h := claim_C7 [⟨0, 0, 0, none⟩, ⟨0, 0, 1000000, none⟩] 8 0 [16, 17] true none
    (by simp) (by norm_num) (fun d hd => by fin_cases hd <;> norm_num) (by norm_num)
  simpa using h

theorem normalizeLngQ_zero : normalizeLngQ 0 = 0 :=
  normalizeLngQ_eq_self (by norm_num) (by norm_num)

theorem getLastD_of_ne_nil {l : List Sample} (h : l ≠ []) (a b : Sample) :
    l.getLastD a = l.getLastD b := by
  rw [List.getLastD_eq_getLast?, List.getLastD_eq_getLast?,
    List.getLast?_eq_getLast _ h]
  rfl

theorem simLoop_append (T : TrigOps) (g : Nat → Option GeoPoint) (target : GeoPoint)
    (θ : ℚ) (endT : Nat) : ∀ (fuel t : Nat) (path : List Sample),
    simLoop T g target θ endT fuel t path = path ++ simLoop T g target θ endT fuel t [] := by
  intro fuel
  induction fuel with
  | zero => intro t path; simp [simLoop]
  | succ fuel ih =>
    intro t path
    simp only [simLoop]
    split_ifs with hguard
    · cases hg : g t with
      | none =>
        simp only [hg]
        exact ih _ _
      | some gp =>
        simp only [hg]
        cases hd : haversineDistanceKm T (some ⟨gp.lat, normalizeLngQ gp.lng⟩) (some target) with
        | none =>
          simp only [hd, List.nil_append]
          conv_lhs => rw [ih]
          conv_rhs => rw [ih]
          simp
        | some dv =>
          simp only [hd, List.nil_append]
          split_ifs with hb
          · simp
          · conv_lhs => rw [ih]
            conv_rhs => rw [ih]
            simp
    · simp

theorem simLoop_stop (T : TrigOps) (g : Nat → Option GeoPoint) (target : GeoPoint)
    (θ : ℚ) (endT : Nat) (fuel t : Nat) (h : ¬ t ≤ endT + SIM_STEP_SECONDS * 1000) :
    simLoop T g target θ endT fuel t [] = [] := by
  cases fuel with
  | zero => rfl
  | succ fuel => simp [simLoop, h]

theorem simLoop_run (T : TrigOps) (g : Nat → Option GeoPoint) (target : GeoPoint)
    (θ : ℚ) (endT : Nat) (hg : ∀ t, (g t).isSome) :
    ∀ (fuel t : Nat), t ≤ endT + SIM_STEP_SECONDS * 1000 →
      endT + SIM_STEP_SECONDS * 1000 < t + fuel * 15000 →
      ∃ tail, simLoop T g target θ endT fuel t [] = tail ∧ tail ≠ [] ∧
        (tail.headD sampleDflt).time = t ∧
        List.Chain' (fun a b : Sample => a.time < b.time) tail ∧
        (endT < (tail.getLastD sampleDflt).time ∨
          ∃ d, (tail.getLastD sampleDflt).distance = some d ∧ d ≤ θ) := by
  have hX : SIM_STEP_SECONDS * 1000 = 15000 := by norm_num [SIM_STEP_SECONDS]
  intro fuel
  induction fuel with
  | zero =>
    intro t hle hsuf
    rw [hX] at hle
    omega
  | succ fuel ih =>
    intro t hle hsuf
    obtain ⟨gp, hgp⟩ := Option.isSome_iff_exists.mp (hg t)
    have hdv : ∃ v, haversineDistanceKm T (some ⟨gp.lat, normalizeLngQ gp.lng⟩) (some target) =
        some v := ⟨_, rfl⟩
    obtain ⟨dv, hdv⟩ := hdv
    simp only [simLoop, hgp, hdv, if_pos hle, List.nil_append]
    by_cases hb : dv ≤ θ
    · rw [if_pos hb]
      refine ⟨_, rfl, by simp, rfl, List.chain'_singleton _, Or.inr ⟨dv, rfl, hb⟩⟩
    · rw [if_neg hb]
      rw [simLoop_append T g target θ endT fuel (t + SIM_STEP_SECONDS * 1000)]
      by_cases hcont : t + SIM_STEP_SECONDS * 1000 ≤ endT + SIM_STEP_SECONDS * 1000
      · have hsuf2 : endT + SIM_STEP_SECONDS * 1000 <
            t + SIM_STEP_SECONDS * 1000 + fuel * 15000 := by
          rw [hX] at hsuf ⊢
          omega
        obtain ⟨tail, htail, hne, hhead, hchain, hlast⟩ := ih (t + SIM_STEP_SECONDS * 1000)
          hcont hsuf2
        rw [htail]
        match tail, hne with
        | b :: tl, _ =>
          refine ⟨_, rfl, by simp, rfl, ?_, ?_⟩
          · refine List.chain'_cons.mpr ⟨?_, hchain⟩
            have hb2 : b.time = t + SIM_STEP_SECONDS * 1000 := hhead
            rw [hX] at hb2
            show t < b.time
            omega
          · simp only [List.singleton_append, List.getLastD_cons]
            rw [getLastD_of_ne_nil (l := b :: tl) (by simp) sampleDflt
              (⟨gp.lat, normalizeLngQ gp.lng, t, some dv⟩), List.getLastD_cons] at hlast
            exact hlast
      · rw [simLoop_stop T g target θ endT fuel _ hcont, List.append_nil]
        refine ⟨_, rfl, by simp, rfl, List.chain'_singleton _, Or.inl ?_⟩
        rw [hX] at hcont hle
        show endT < t
        omega

/-- C4 (amended): when the model yields a ground point at every queried
instant, a prediction with `time > now` produces a non-null path whose
first sample is at `now`, whose timestamps strictly increase, whose last
sample is at or after the pass time, and which has at least 2 samples; with
no prediction, or a prediction not in the future, the path is null.  (When
propagation fails at some instants the first sample can be later than `now`
and the last can precede the pass time — see the counterexample.) -/
theorem claim_C4 (T : TrigOps) (g : Nat → Option GeoPoint) (target : GeoPoint) (θ : ℚ)
    (pred : Option PassPrediction) (now : Nat) (hg : ∀ t, (g t).isSome) :
    ((pred = none ∨ ∃ p, pred = some p ∧ p.time ≤ now) →
      simulationPath T g target θ pred now = none) ∧
    (∀ p, pred = some p → now < p.time →
      ∃ path, simulationPath T g target θ pred now = some path ∧
        2 ≤ path.length ∧ (path.headD sampleDflt).time = now ∧
        List.Chain' (fun a b : Sample => a.time < b.time) path ∧
        p.time ≤ (path.getLastD sampleDflt).time) := by
  constructor
  · rintro (rfl | ⟨p, rfl, hle⟩)
    · rfl
    · simp [simulationPath, hle]
  · rintro p rfl hlt
    have hX : SIM_STEP_SECONDS * 1000 = 15000 := by norm_num [SIM_STEP_SECONDS]
    have hne0 : ¬ p.time = 0 := by omega
    have hnle : ¬ p.time ≤ now := by omega
    obtain ⟨sp, hsp⟩ := Option.isSome_iff_exists.mp (hg now)
    simp only [simulationPath, if_neg hne0, if_neg hnle, hsp]
    rw [simLoop_append T g target θ p.time]
    obtain ⟨tail, htail, hnetail, hhead, hchain, hlast⟩ :=
      simLoop_run T g target θ p.time hg ((p.time - now) / (SIM_STEP_SECONDS * 1000) + 1)
        (now + SIM_STEP_SECONDS * 1000) (by rw [hX]; omega) (by rw [hX]; omega)
    rw [htail]
    cases tail with
    | nil => exact absurd rfl hnetail
    | cons b tl =>
      simp only [List.singleton_append]
      rw [if_neg (show ¬ (⟨sp.lat, sp.lng, now, none⟩ :: b :: tl : List Sample).length < 2 from
        by simp)]
      have hLP : ((⟨sp.lat, sp.lng, now, none⟩ : Sample) :: b :: tl).getLastD sampleDflt =
          (b :: tl).getLastD sampleDflt := by
        rw [List.getLastD_cons]
        exact getLastD_of_ne_nil (by simp) _ _
      rw [hLP]
      have hb2 : b.time = now + SIM_STEP_SECONDS * 1000 := hhead
      rw [hX] at hb2
      have hchainfull : List.Chain' (fun a b : Sample => a.time < b.time)
          (⟨sp.lat, sp.lng, now, none⟩ :: b :: tl) := by
        refine List.chain'_cons.mpr ⟨?_, hchain⟩
        show now < b.time
        omega
      rcases hlast with hov | ⟨d, hdist, hdle⟩
      · rw [if_neg (show ¬ ((b :: tl).getLastD sampleDflt).time < p.time from by omega)]
        refine ⟨_, rfl, by simp, rfl, hchainfull, ?_⟩
        rw [hLP]
        omega
      · by_cases hlt2 : ((b :: tl).getLastD sampleDflt).time < p.time
        · rw [if_pos hlt2]
          obtain ⟨fp, hfp⟩ := Option.isSome_iff_exists.mp (hg p.time)
          simp only [hfp]
          have hgl : ((b :: tl).getLastD sampleDflt) = (b :: tl).getLast (by simp) := by
            rw [List.getLastD_eq_getLast?, List.getLast?_eq_getLast _ (by simp)]
            rfl
          refine ⟨_, rfl, by simp, rfl, ?_, ?_⟩
          · show List.Chain' (fun a b : Sample => a.time < b.time)
              (⟨sp.lat, sp.lng, now, none⟩ :: ((b :: tl) ++
                [⟨fp.lat, normalizeLngQ fp.lng, p.time, none⟩]))
            refine List.chain'_cons'.mpr ⟨?_, ?_⟩
            · intro y hy
              simp only [List.cons_append, List.head?_cons, Option.mem_def,
                Option.some.injEq] at hy
              subst hy
              show now < b.time
              omega
            · refine List.chain'_append.mpr ⟨hchain, List.chain'_singleton _, ?_⟩
              intro x hx y hy
              rw [List.getLast?_eq_getLast _ (by simp), Option.mem_def,
                Option.some.injEq] at hx
              simp only [List.head?_cons, Option.mem_def, Option.some.injEq] at hy
              subst hx
              subst hy
              rw [← hgl]
              exact hlt2
          · have hcat : List.getLastD (((⟨sp.lat, sp.lng, now, none⟩ : Sample) :: b :: tl) ++
                ([⟨fp.lat, normalizeLngQ fp.lng, p.time, none⟩] : List Sample)) sampleDflt =
                ⟨fp.lat, normalizeLngQ fp.lng, p.time, none⟩ := by
              rw [List.getLastD_eq_getLast?, List.getLast?_concat]
              rfl
            rw [hcat]
        · rw [if_neg hlt2]
          refine ⟨_, rfl, by simp, rfl, hchainfull, ?_⟩
          rw [hLP]
          omega

/-- C4 witness: the amended path-builder theorem applied to a total model
and the prediction at 31000 ms with `now = 1000 ms`. -/
theorem claim_C4_witness :
    ∃ path, simulationPath trigConst100 groundConst targetOrigin 5
        (some ⟨31000, 0, false⟩) 1000 = some path ∧
      2 ≤ path.length ∧ (path.headD sampleDflt).time = 1000 ∧
      List.Chain' (fun a b : Sample => a.time < b.time) path ∧
      31000 ≤ (path.getLastD sampleDflt).time :=
  (claim_C4 trigConst100 groundConst targetOrigin 5 (some ⟨31000, 0, false⟩) 1000
    (fun _ => rfl)).2 ⟨31000, 0, false⟩ rfl (by norm_num)

/-- C4 counterexample: with a model whose propagation fails at `now` and
after 31000 ms, the returned path starts at 16000 ms (not at `now` =
1000 ms) and its last sample (31000 ms) precedes the predicted pass time
(61000 ms), refuting the claim as stated. -/
theorem claim_C4_counterexample :
    simulationPath trigConst100 groundTwoOnly targetOrigin 5 (some ⟨61000, 0, false⟩) 1000 =
      some [⟨0, 0, 16000, some (6371 / 50)⟩, ⟨0, 0, 31000, some (6371 / 50)⟩] ∧
    (([⟨0, 0, 16000, some (6371 / 50)⟩, ⟨0, 0, 31000, some (6371 / 50)⟩] : List Sample).headD
      sampleDflt).time ≠ 1000 ∧
    (([⟨0, 0, 16000, some (6371 / 50)⟩, ⟨0, 0, 31000, some (6371 / 50)⟩] : List Sample).getLastD
      sampleDflt).time < 61000 := by
  refine ⟨?_, by norm_num, by norm_num [sampleDflt]⟩
  norm_num [simulationPath, simLoop, groundTwoOnly, haversineDistanceKm, trigConst100,
    targetOrigin, normalizeLngQ_zero, SIM_STEP_SECONDS, sampleDflt]

theorem bestFold_cons (T : TrigOps) (g : Nat → Option GeoPoint) (target : GeoPoint)
    (u : Nat) (l : List Nat) (b : Option Best) :
    bestFold T g target (u :: l) b =
      bestFold T g target l
        (match evalDist T g target u with
          | none => b
          | some d => updateBest b d u) := rfl

theorem updateBest_some (b : Option Best) (d : ℚ) (t : Nat) :
    ∃ b1, updateBest b d t = some b1 ∧ b1.distance ≤ d ∧
      (b1 = ⟨d, t⟩ ∨ b = some b1) ∧
      ∀ bb, b = some bb → b1.distance ≤ bb.distance := by
  match b with
  | none =>
    refine ⟨⟨d, t⟩, rfl, le_refl d, Or.inl rfl, ?_⟩
    intro bb h
    exact absurd h (by simp)
  | some bb0 =>
    by_cases h : d < bb0.distance
    · refine ⟨⟨d, t⟩, by simp [updateBest, h], le_refl d, Or.inl rfl, ?_⟩
      intro bb hbb
      rw [Option.some.injEq] at hbb
      subst hbb
      exact le_of_lt h
    · refine ⟨bb0, by simp [updateBest, h], le_of_not_lt h, Or.inr rfl, ?_⟩
      intro bb hbb
      rw [Option.some.injEq] at hbb
      subst hbb
      exact le_refl _

theorem bestFold_mono (T : TrigOps) (g : Nat → Option GeoPoint) (target : GeoPoint) :
    ∀ (l : List Nat) (b : Option Best) (bb : Best), b = some bb →
    ∃ b1, bestFold T g target l b = some b1 ∧ b1.distance ≤ bb.distance := by
  intro l
  induction l with
  | nil =>
    intro b bb hb
    exact ⟨bb, by simp [bestFold, hb], le_refl _⟩
  | cons u l ih =>
    intro b bb hb
    rw [bestFold_cons]
    cases hd : evalDist T g target u with
    | none =>
      simp only [hd]
      exact ih b bb hb
    | some d =>
      simp only [hd]
      obtain ⟨b1, hup, _, _, hmono⟩ := updateBest_some b d u
      rw [hup]
      obtain ⟨b2, hfold, hle2⟩ := ih (some b1) b1 rfl
      exact ⟨b2, hfold, le_trans hle2 (hmono bb hb)⟩

theorem bestFold_min (T : TrigOps) (g : Nat → Option GeoPoint) (target : GeoPoint) :
    ∀ (l : List Nat) (b : Option Best) (u : Nat) (d : ℚ),
    u ∈ l → evalDist T g target u = some d →
    ∃ b1, bestFold T g target l b = some b1 ∧ b1.distance ≤ d := by
  intro l
  induction l with
  | nil =>
    intro b u d hu
    exact absurd hu (List.not_mem_nil u)
  | cons v l ih =>
    intro b u d hu hd
    rw [bestFold_cons]
    rcases List.mem_cons.mp hu with rfl | hu2
    · simp only [hd]
      obtain ⟨b1, hup, hle1, _, _⟩ := updateBest_some b d u
      rw [hup]
      obtain ⟨b2, hfold, hle2⟩ := bestFold_mono T g target l (some b1) b1 rfl
      exact ⟨b2, hfold, le_trans hle2 hle1⟩
    · cases hdv : evalDist T g target v with
      | none =>
        simp only [hdv]
        exact ih b u d hu2 hd
      | some dv =>
        simp only [hdv]
        obtain ⟨b1, hup, _, _, _⟩ := updateBest_some b dv v
        rw [hup]
        exact ih (some b1) u d hu2 hd

theorem bestFold_source (T : TrigOps) (g : Nat → Option GeoPoint) (target : GeoPoint) :
    ∀ (l : List Nat) (b : Option Best),
    bestFold T g target l b = b ∨
    ∃ u ∈ l, ∃ d, evalDist T g target u = some d ∧
      bestFold T g target l b = some ⟨d, u⟩ := by
  intro l
  induction l with
  | nil =>
    intro b
    exact Or.inl rfl
  | cons v l ih =>
    intro b
    rw [bestFold_cons]
    cases hdv : evalDist T g target v with
    | none =>
      simp only [hdv]
      rcases ih b with h | ⟨u, hu, d, hd, hfold⟩
      · exact Or.inl h
      · exact Or.inr ⟨u, by simp [hu], d, hd, hfold⟩
    | some dv =>
      simp only [hdv]
      obtain ⟨b1, hup, _, hcase, _⟩ := updateBest_some b dv v
      rw [hup]
      rcases ih (some b1) with h | ⟨u, hu, d, hd, hfold⟩
      · rcases hcase with rfl | hb
        · exact Or.inr ⟨v, by simp, dv, hdv, h⟩
        · exact Or.inl (h.trans hb.symm)
      · exact Or.inr ⟨u, by simp [hu], d, hd, hfold⟩

theorem bestFold_none (T : TrigOps) (g : Nat → Option GeoPoint) (target : GeoPoint) :
    ∀ (l : List Nat), (∀ u ∈ l, evalDist T g target u = none) →
    bestFold T g target l none = none := by
  intro l
  induction l with
  | nil =>
    intro _
    rfl
  | cons v l ih =>
    intro h
    rw [bestFold_cons]
    simp only [h v (by simp)]
    exact ih fun u hu => h u (by simp [hu])

theorem bestFold_keep (T : TrigOps) (g : Nat → Option GeoPoint) (target : GeoPoint)
    (c : ℚ) : ∀ (l : List Nat) (bb : Best), (∀ v ∈ l, evalDist T g target v = some c) →
    bb.distance ≤ c → bestFold T g target l (some bb) = some bb := by
  intro l
  induction l with
  | nil =>
    intro bb _ _
    rfl
  | cons v l ih =>
    intro bb hall hle
    rw [bestFold_cons]
    simp only [hall v (by simp)]
    have hup : updateBest (some bb) c v = some bb := by
      simp [updateBest, not_lt.mpr hle]
    rw [hup]
    exact ih bb (fun v2 hv2 => hall v2 (by simp [hv2])) hle

theorem bestFold_const (T : TrigOps) (g : Nat → Option GeoPoint) (target : GeoPoint)
    (c : ℚ) (l : List Nat) (u : Nat)
    (hall : ∀ v ∈ u :: l, evalDist T g target v = some c) :
    bestFold T g target (u :: l) none = some ⟨c, u⟩ := by
  rw [bestFold_cons]
  simp only [hall u (by simp)]
  have hup : updateBest none c u = some ⟨c, u⟩ := rfl
  rw [hup]
  exact bestFold_keep T g target c l ⟨c, u⟩ (fun v hv => hall v (by simp [hv])) (le_refl c)

theorem mem_sampleTimes (step endT : Nat) :
    ∀ (fuel t u : Nat), endT < t + fuel * step →
    (u ∈ sampleTimes step endT fuel t ↔ (∃ k, u = t + k * step) ∧ u ≤ endT) := by
  intro fuel
  induction fuel with
  | zero =>
    intro t u hsuf
    rw [Nat.zero_mul, Nat.add_zero] at hsuf
    simp only [sampleTimes]
    constructor
    · intro h
      exact absurd h (List.not_mem_nil u)
    · rintro ⟨⟨k, rfl⟩, hle⟩
      exact absurd hle (not_le.mpr (lt_of_lt_of_le hsuf (Nat.le_add_right _ _)))
  | succ fuel ih =>
    intro t u hsuf
    simp only [sampleTimes]
    by_cases hg : t ≤ endT
    · rw [if_pos hg]
      have hsuf2 : endT < (t + step) + fuel * step := by
        have heq : t + (fuel + 1) * step = (t + step) + fuel * step := by ring
        rw [heq] at hsuf
        exact hsuf
      rw [List.mem_cons, ih (t + step) u hsuf2]
      constructor
      · rintro (rfl | ⟨⟨k, rfl⟩, hle⟩)
        · exact ⟨⟨0, by ring⟩, hg⟩
        · exact ⟨⟨k + 1, by ring⟩, hle⟩
      · rintro ⟨⟨k, rfl⟩, hle⟩
        cases k with
        | zero =>
          left
          simp
        | succ k =>
          right
          exact ⟨⟨k, by ring⟩, hle⟩
    · rw [if_neg hg]
      constructor
      · intro h
        exact absurd h (List.not_mem_nil u)
      · rintro ⟨⟨k, rfl⟩, hle⟩
        exact absurd hle
          (not_le.mpr (lt_of_lt_of_le (not_le.mp hg) (Nat.le_add_right _ _)))

theorem coarseSampled_iff (now u : Nat) :
    CoarseSampled now u ↔
      (∃ k, u = now + k * (PASS_COARSE_STEP_SECONDS * 1000)) ∧
        u ≤ now + PASS_LOOKAHEAD_MINUTES * 60 * 1000 := by
  unfold CoarseSampled
  have h30 : PASS_COARSE_STEP_SECONDS * 1000 = 30000 := by norm_num [PASS_COARSE_STEP_SECONDS]
  rw [h30]
  constructor
  · rintro ⟨h1, h2, h3⟩
    refine ⟨⟨(u - now) / 30000, ?_⟩, h2⟩
    omega
  · rintro ⟨⟨k, rfl⟩, h2⟩
    refine ⟨Nat.le_add_right _ _, h2, ?_⟩
    rw [Nat.add_sub_cancel_left]
    exact Nat.mul_mod_left k 30000

theorem refineSampled_iff (w : Window) (u : Nat) :
    RefineSampled w u ↔
      (∃ k, u = w.start + k * (PASS_REFINE_STEP_SECONDS * 1000)) ∧ u ≤ w.stop := by
  unfold RefineSampled
  have h1000 : PASS_REFINE_STEP_SECONDS * 1000 = 1000 := by norm_num [PASS_REFINE_STEP_SECONDS]
  rw [h1000]
  constructor
  · rintro ⟨h1, h2, h3⟩
    refine ⟨⟨(u - w.start) / 1000, ?_⟩, h2⟩
    omega
  · rintro ⟨⟨k, rfl⟩, h2⟩
    refine ⟨Nat.le_add_right _ _, h2, ?_⟩
    rw [Nat.add_sub_cancel_left]
    exact Nat.mul_mod_left k 1000

theorem coarseLoop_clean (T : TrigOps) (g : Nat → Option GeoPoint) (target : GeoPoint)
    (now endT : Nat) : ∀ (fuel t : Nat) (best : Option Best),
    (∀ u d, (∃ k, u = t + k * (PASS_COARSE_STEP_SECONDS * 1000)) → u ≤ endT →
      evalDist T g target u = some d → PASS_THRESHOLD_COARSE_KM < d) →
    coarseLoop T g target now endT fuel t best =
      (bestFold T g target (sampleTimes (PASS_COARSE_STEP_SECONDS * 1000) endT fuel t) best,
        none) := by
  intro fuel
  induction fuel with
  | zero =>
    intro t best hclean
    simp [coarseLoop, sampleTimes, bestFold]
  | succ fuel ih =>
    intro t best hclean
    simp only [coarseLoop, sampleTimes]
    by_cases hg : t ≤ endT
    · rw [if_pos hg, if_pos hg, bestFold_cons]
      cases hd : evalDist T g target t with
      | none =>
        simp only [hd]
        exact ih (t + PASS_COARSE_STEP_SECONDS * 1000) best
          fun u d hk hle hdist => hclean u d
            (by obtain ⟨k, hk2⟩ := hk; exact ⟨k + 1, by rw [hk2]; ring⟩) hle hdist
      | some d =>
        simp only [hd]
        have h75 : PASS_THRESHOLD_COARSE_KM < d := hclean t d ⟨0, by ring⟩ hg hd
        rw [if_neg (not_le.mpr h75)]
        exact ih (t + PASS_COARSE_STEP_SECONDS * 1000) (updateBest best d t)
          fun u dd hk hle hdist => hclean u dd
            (by obtain ⟨k, hk2⟩ := hk; exact ⟨k + 1, by rw [hk2]; ring⟩) hle hdist
    · rw [if_neg hg, if_neg hg]
      simp [bestFold]

theorem coarseLoop_hit (T : TrigOps) (g : Nat → Option GeoPoint) (target : GeoPoint)
    (now endT : Nat) : ∀ (fuel t : Nat) (best : Option Best) (u : Nat) (d : ℚ),
    (∃ k, u = t + k * (PASS_COARSE_STEP_SECONDS * 1000)) → u ≤ endT →
    u < t + fuel * (PASS_COARSE_STEP_SECONDS * 1000) →
    evalDist T g target u = some d → d ≤ PASS_THRESHOLD_COARSE_KM →
    (∀ v dv, (∃ k, v = t + k * (PASS_COARSE_STEP_SECONDS * 1000)) → v < u →
      evalDist T g target v = some dv → PASS_THRESHOLD_COARSE_KM < dv) →
    ∃ best1, coarseLoop T g target now endT fuel t best =
      (best1, some (refineWindowFor now endT u)) := by
  have hstep : 0 < PASS_COARSE_STEP_SECONDS * 1000 := by norm_num [PASS_COARSE_STEP_SECONDS]
  intro fuel
  induction fuel with
  | zero =>
    rintro t best u d ⟨k, rfl⟩ _ hsuf _ _ _
    rw [Nat.zero_mul, Nat.add_zero] at hsuf
    exact absurd hsuf (not_lt.mpr (Nat.le_add_right _ _))
  | succ fuel ih =>
    intro t best u d hk hle hsuf hd h75 hclean
    obtain ⟨k, hk⟩ := hk
    have htle : t ≤ u := by rw [hk]; exact Nat.le_add_right _ _
    simp only [coarseLoop]
    rw [if_pos (le_trans htle hle)]
    by_cases hut : u = t
    · subst hut
      simp only [hd]
      rw [if_pos h75]
      exact ⟨_, rfl⟩
    · obtain ⟨k2, rfl⟩ : ∃ k2, k = k2 + 1 := by
        cases k with
        | zero => exact absurd (by simpa using hk) hut
        | succ k2 => exact ⟨k2, rfl⟩
      have hk2 : u = (t + PASS_COARSE_STEP_SECONDS * 1000) +
          k2 * (PASS_COARSE_STEP_SECONDS * 1000) := by
        rw [hk]
        ring
      have htlt : t < u := by
        have h1 : t + PASS_COARSE_STEP_SECONDS * 1000 ≤ u := by
          rw [hk2]
          exact Nat.le_add_right _ _
        exact lt_of_lt_of_le (Nat.lt_add_of_pos_right hstep) h1
      have hsuf2 : u < (t + PASS_COARSE_STEP_SECONDS * 1000) +
          fuel * (PASS_COARSE_STEP_SECONDS * 1000) := by
        have heq : t + (fuel + 1) * (PASS_COARSE_STEP_SECONDS * 1000) =
            (t + PASS_COARSE_STEP_SECONDS * 1000) +
              fuel * (PASS_COARSE_STEP_SECONDS * 1000) := by ring
        rw [heq] at hsuf
        exact hsuf
      have hclean2 : ∀ v dv,
          (∃ k3, v = (t + PASS_COARSE_STEP_SECONDS * 1000) +
            k3 * (PASS_COARSE_STEP_SECONDS * 1000)) → v < u →
          evalDist T g target v = some dv → PASS_THRESHOLD_COARSE_KM < dv := by
        rintro v dv ⟨k3, hk3⟩ hvlt hdv
        exact hclean v dv ⟨k3 + 1, by rw [hk3]; ring⟩ hvlt hdv
      cases hdv : evalDist T g target t with
      | none =>
        simp only [hdv]
        exact ih (t + PASS_COARSE_STEP_SECONDS * 1000) best u d ⟨k2, hk2⟩ hle hsuf2 hd h75
          hclean2
      | some dv =>
        have h75v : PASS_THRESHOLD_COARSE_KM < dv := hclean t dv ⟨0, by ring⟩ htlt hdv
        simp only [hdv]
        rw [if_neg (not_le.mpr h75v)]
        exact ih (t + PASS_COARSE_STEP_SECONDS * 1000) (updateBest best dv t) u d ⟨k2, hk2⟩
          hle hsuf2 hd h75 hclean2

theorem coarseLoop_inv (T : TrigOps) (g : Nat → Option GeoPoint) (target : GeoPoint)
    (now endT : Nat) (hendT : endT = now + PASS_LOOKAHEAD_MINUTES * 60 * 1000) :
    ∀ (fuel t : Nat) (best b : Option Best) (w : Window),
    coarseLoop T g target now endT fuel t best = (b, some w) →
    now ≤ t → (∃ k0, t = now + k0 * (PASS_COARSE_STEP_SECONDS * 1000)) →
    (∀ v dv, CoarseSampled now v → v < t → evalDist T g target v = some dv →
      PASS_THRESHOLD_COARSE_KM < dv) →
    ∃ u, FirstCoarseHit T g target now u ∧ w = refineWindowFor now endT u := by
  have h30 : PASS_COARSE_STEP_SECONDS * 1000 = 30000 := by norm_num [PASS_COARSE_STEP_SECONDS]
  intro fuel
  induction fuel with
  | zero =>
    intro t best b w h
    simp [coarseLoop] at h
  | succ fuel ih =>
    rintro t best b w h hnow ⟨k0, hk0⟩ hclean
    simp only [coarseLoop] at h
    by_cases hg : t ≤ endT
    · rw [if_pos hg] at h
      cases hdv : evalDist T g target t with
      | none =>
        simp only [hdv] at h
        refine ih (t + PASS_COARSE_STEP_SECONDS * 1000) best b w h
          (le_trans hnow (Nat.le_add_right _ _)) ⟨k0 + 1, by rw [hk0]; ring⟩ ?_
        intro v dv hs hvlt hdv2
        have hvle : v ≤ t := by
          obtain ⟨hs1, hs2, hs3⟩ := hs
          rw [h30] at hvlt hs3 hk0
          omega
        rcases Nat.lt_or_eq_of_le hvle with hlt | rfl
        · exact hclean v dv hs hlt hdv2
        · rw [hdv] at hdv2
          exact Option.noConfusion hdv2
      | some dv =>
        simp only [hdv] at h
        by_cases h75 : dv ≤ PASS_THRESHOLD_COARSE_KM
        · rw [if_pos h75] at h
          injection h with h1 h2
          injection h2 with h3
          refine ⟨t, ⟨?_, ⟨dv, hdv, h75⟩, hclean⟩, h3.symm⟩
          refine ⟨hnow, by rw [← hendT]; exact hg, ?_⟩
          rw [hk0, Nat.add_sub_cancel_left]
          exact Nat.mul_mod_left _ _
        · rw [if_neg h75] at h
          refine ih (t + PASS_COARSE_STEP_SECONDS * 1000) (updateBest best dv t) b w h
            (le_trans hnow (Nat.le_add_right _ _)) ⟨k0 + 1, by rw [hk0]; ring⟩ ?_
          intro v dv2 hs hvlt hdv2
          have hvle : v ≤ t := by
            obtain ⟨hs1, hs2, hs3⟩ := hs
            rw [h30] at hvlt hs3 hk0
            omega
          rcases Nat.lt_or_eq_of_le hvle with hlt | rfl
          · exact hclean v dv2 hs hlt hdv2
          · rw [hdv] at hdv2
            rw [Option.some.injEq] at hdv2
            rw [hdv2] at h75
            exact not_le.mp h75
    · rw [if_neg hg] at h
      simp at h

theorem refineLoop_first (T : TrigOps) (g : Nat → Option GeoPoint) (target : GeoPoint)
    (passThresholdKm : ℚ) (endR : Nat) :
    ∀ (fuel t : Nat) (best bestR : Option Best) (u : Nat) (d : ℚ),
    (∃ k, u = t + k * (PASS_REFINE_STEP_SECONDS * 1000)) → u ≤ endR →
    u < t + fuel * (PASS_REFINE_STEP_SECONDS * 1000) →
    evalDist T g target u = some d → d ≤ passThresholdKm →
    (∀ v dv, (∃ k, v = t + k * (PASS_REFINE_STEP_SECONDS * 1000)) → v < u →
      evalDist T g target v = some dv → passThresholdKm < dv) →
    refineLoop T g target passThresholdKm endR fuel t best bestR = Sum.inr ⟨u, d, true⟩ := by
  have hstep : 0 < PASS_REFINE_STEP_SECONDS * 1000 := by norm_num [PASS_REFINE_STEP_SECONDS]
  intro fuel
  induction fuel with
  | zero =>
    rintro t best bestR u d ⟨k, rfl⟩ _ hsuf _ _ _
    rw [Nat.zero_mul, Nat.add_zero] at hsuf
    exact absurd hsuf (not_lt.mpr (Nat.le_add_right _ _))
  | succ fuel ih =>
    intro t best bestR u d hk hle hsuf hd hdle hclean
    obtain ⟨k, hk⟩ := hk
    have htle : t ≤ u := by rw [hk]; exact Nat.le_add_right _ _
    simp only [refineLoop]
    rw [if_pos (le_trans htle hle)]
    by_cases hut : u = t
    · subst hut
      simp only [hd]
      rw [if_pos hdle]
    · obtain ⟨k2, rfl⟩ : ∃ k2, k = k2 + 1 := by
        cases k with
        | zero => exact absurd (by simpa using hk) hut
        | succ k2 => exact ⟨k2, rfl⟩
      have hk2 : u = (t + PASS_REFINE_STEP_SECONDS * 1000) +
          k2 * (PASS_REFINE_STEP_SECONDS * 1000) := by
        rw [hk]
        ring
      have htlt : t < u := by
        have h1 : t + PASS_REFINE_STEP_SECONDS * 1000 ≤ u := by
          rw [hk2]
          exact Nat.le_add_right _ _
        exact lt_of_lt_of_le (Nat.lt_add_of_pos_right hstep) h1
      have hsuf2 : u < (t + PASS_REFINE_STEP_SECONDS * 1000) +
          fuel * (PASS_REFINE_STEP_SECONDS * 1000) := by
        have heq : t + (fuel + 1) * (PASS_REFINE_STEP_SECONDS * 1000) =
            (t + PASS_REFINE_STEP_SECONDS * 1000) +
              fuel * (PASS_REFINE_STEP_SECONDS * 1000) := by ring
        rw [heq] at hsuf
        exact hsuf
      have hclean2 : ∀ v dv,
          (∃ k3, v = (t + PASS_REFINE_STEP_SECONDS * 1000) +
            k3 * (PASS_REFINE_STEP_SECONDS * 1000)) → v < u →
          evalDist T g target v = some dv → passThresholdKm < dv := by
        rintro v dv ⟨k3, hk3⟩ hvlt hdv
        exact hclean v dv ⟨k3 + 1, by rw [hk3]; ring⟩ hvlt hdv
      cases hdv : evalDist T g target t with
      | none =>
        simp only [hdv]
        exact ih (t + PASS_REFINE_STEP_SECONDS * 1000) best bestR u d ⟨k2, hk2⟩ hle hsuf2
          hd hdle hclean2
      | some dv =>
        have hgt : passThresholdKm < dv := hclean t dv ⟨0, by ring⟩ htlt hdv
        simp only [hdv]
        rw [if_neg (not_le.mpr hgt)]
        exact ih (t + PASS_REFINE_STEP_SECONDS * 1000) (updateBest best dv t)
          (updateBest bestR dv t) u d ⟨k2, hk2⟩ hle hsuf2 hd hdle hclean2

theorem refineLoop_inr_inv (T : TrigOps) (g : Nat → Option GeoPoint) (target : GeoPoint)
    (passThresholdKm : ℚ) (endR : Nat) :
    ∀ (fuel t : Nat) (best bestR : Option Best) (p : PassPrediction),
    refineLoop T g target passThresholdKm endR fuel t best bestR = Sum.inr p →
    ∃ u d, p = ⟨u, d, true⟩ ∧ t ≤ u ∧ u ≤ endR ∧
      (∃ k, u = t + k * (PASS_REFINE_STEP_SECONDS * 1000)) ∧
      evalDist T g target u = some d ∧ d ≤ passThresholdKm := by
  intro fuel
  induction fuel with
  | zero =>
    intro t best bestR p h
    simp [refineLoop] at h
  | succ fuel ih =>
    intro t best bestR p h
    simp only [refineLoop] at h
    by_cases hg : t ≤ endR
    · rw [if_pos hg] at h
      cases hdv : evalDist T g target t with
      | none =>
        simp only [hdv] at h
        obtain ⟨u, d, hp, htu, hue, ⟨k, hk⟩, hd, hdle⟩ := ih _ _ _ _ h
        exact ⟨u, d, hp, le_trans (Nat.le_add_right _ _) htu, hue,
          ⟨k + 1, by rw [hk]; ring⟩, hd, hdle⟩
      | some dv =>
        simp only [hdv] at h
        by_cases hble : dv ≤ passThresholdKm
        · rw [if_pos hble] at h
          injection h with h1
          exact ⟨t, dv, h1.symm, le_refl t, hg, ⟨0, by ring⟩, hdv, hble⟩
        · rw [if_neg hble] at h
          obtain ⟨u, d, hp, htu, hue, ⟨k, hk⟩, hd, hdle⟩ := ih _ _ _ _ h
          exact ⟨u, d, hp, le_trans (Nat.le_add_right _ _) htu, hue,
            ⟨k + 1, by rw [hk]; ring⟩, hd, hdle⟩
    · rw [if_neg hg] at h
      simp at h

theorem refineLoop_inl_bound (T : TrigOps) (g : Nat → Option GeoPoint) (target : GeoPoint)
    (passThresholdKm : ℚ) (endR : Nat) :
    ∀ (fuel t : Nat) (best bestR b1 : Option Best) (br : Best),
    refineLoop T g target passThresholdKm endR fuel t best bestR = Sum.inl (b1, some br) →
    (bestR = none ∨ ∃ bb, bestR = some bb ∧ passThresholdKm < bb.distance) →
    passThresholdKm < br.distance := by
  intro fuel
  induction fuel with
  | zero =>
    intro t best bestR b1 br h hinv
    simp only [refineLoop] at h
    injection h with h1
    injection h1 with h2 h3
    rcases hinv with rfl | ⟨bb, hbb, hgt⟩
    · exact Option.noConfusion h3
    · rw [hbb] at h3
      rw [Option.some.injEq] at h3
      rw [← h3]
      exact hgt
  | succ fuel ih =>
    intro t best bestR b1 br h hinv
    simp only [refineLoop] at h
    by_cases hg : t ≤ endR
    · rw [if_pos hg] at h
      cases hdv : evalDist T g target t with
      | none =>
        simp only [hdv] at h
        exact ih _ _ _ _ _ h hinv
      | some dv =>
        simp only [hdv] at h
        by_cases hble : dv ≤ passThresholdKm
        · rw [if_pos hble] at h
          exact Sum.noConfusion h
        · rw [if_neg hble] at h
          refine ih _ _ _ _ _ h ?_
          rcases hinv with rfl | ⟨bb, hbb, hgt⟩
          · exact Or.inr ⟨⟨dv, t⟩, rfl, not_le.mp hble⟩
          · rw [hbb]
            simp only [updateBest]
            by_cases hcmp : dv < bb.distance
            · rw [if_pos hcmp]
              exact Or.inr ⟨⟨dv, t⟩, rfl, not_le.mp hble⟩
            · rw [if_neg hcmp]
              exact Or.inr ⟨bb, rfl, hgt⟩
    · rw [if_neg hg] at h
      injection h with h1
      injection h1 with h2 h3
      rcases hinv with rfl | ⟨bb, hbb, hgt⟩
      · exact Option.noConfusion h3
      · rw [hbb] at h3
        rw [Option.some.injEq] at h3
        rw [← h3]
        exact hgt

theorem refineWindow_width (now endT u : Nat) :
    (refineWindowFor now endT u).stop <
      (refineWindowFor now endT u).start + (2 * PASS_REFINE_WINDOW_SECONDS + 1) * 1000 := by
  simp only [refineWindowFor, PASS_REFINE_WINDOW_SECONDS]
  omega

theorem fallbackPrediction_false (b : Option Best) (p : PassPrediction)
    (h : fallbackPrediction b = some p) : p.thresholdHit = false := by
  match b with
  | none => simp [fallbackPrediction] at h
  | some bb =>
    simp only [fallbackPrediction] at h
    split_ifs at h with h0
    rw [Option.some.injEq] at h
    rw [← h]

theorem fallbackPrediction_eq (b : Best) (h : b.time ≠ 0) :
    fallbackPrediction (some b) = some ⟨b.time, b.distance, false⟩ := by
  simp [fallbackPrediction, h]

theorem firstCoarseHit_unique (T : TrigOps) (g : Nat → Option GeoPoint) (target : GeoPoint)
    (now u v : Nat) (hu : FirstCoarseHit T g target now u)
    (hv : FirstCoarseHit T g target now v) : u = v := by
  by_contra hne
  rcases Nat.lt_or_ge u v with h | h
  · obtain ⟨d, hd, hle⟩ := hu.2.1
    exact absurd hle (not_le.mpr (hv.2.2 u d hu.1 h hd))
  · have h2 : v < u := by omega
    obtain ⟨d, hd, hle⟩ := hv.2.1
    exact absurd hle (not_le.mpr (hu.2.2 v d hv.1 h2 hd))

theorem refine_window_run (T : TrigOps) (g : Nat → Option GeoPoint) (target : GeoPoint)
    (passThresholdKm : ℚ) (now endT u : Nat)
    (t1 : Nat) (d1 : ℚ)
    (hq1 : RefineSampled (refineWindowFor now endT u) t1)
    (hq2 : evalDist T g target t1 = some d1) (hq3 : d1 ≤ passThresholdKm)
    (best bestR : Option Best) :
    ∃ t0 d0,
      refineLoop T g target passThresholdKm (refineWindowFor now endT u).stop
        (2 * PASS_REFINE_WINDOW_SECONDS + 1) (refineWindowFor now endT u).start best bestR =
        Sum.inr ⟨t0, d0, true⟩ ∧
      RefineSampled (refineWindowFor now endT u) t0 ∧ evalDist T g target t0 = some d0 ∧
      d0 ≤ passThresholdKm ∧
      ∀ t d, RefineSampled (refineWindowFor now endT u) t → t < t0 →
        evalDist T g target t = some d → passThresholdKm < d := by
  classical
  have hex : ∃ t, RefineSampled (refineWindowFor now endT u) t ∧
      ∃ d, evalDist T g target t = some d ∧ d ≤ passThresholdKm :=
    ⟨t1, hq1, d1, hq2, hq3⟩
  have hspec := Nat.find_spec hex
  obtain ⟨hs0, d0, hd0, hdle0⟩ := hspec
  have hmin : ∀ t d, RefineSampled (refineWindowFor now endT u) t → t < Nat.find hex →
      evalDist T g target t = some d → passThresholdKm < d := by
    intro t d hs hlt hd
    by_contra hcon
    exact Nat.find_min hex hlt ⟨hs, d, hd, not_lt.mp hcon⟩
  refine ⟨Nat.find hex, d0, ?_, hs0, hd0, hdle0, hmin⟩
  have h1000 : PASS_REFINE_STEP_SECONDS * 1000 = 1000 := by norm_num [PASS_REFINE_STEP_SECONDS]
  obtain ⟨⟨k, hk⟩, hle⟩ := (refineSampled_iff _ _).mp hs0
  apply refineLoop_first T g target passThresholdKm _ _ _ best bestR _ d0 ⟨k, hk⟩ hle ?_ hd0
    hdle0 ?_
  · -- fuel sufficiency from the window width
    have hw := refineWindow_width now endT u
    rw [h1000] at hk
    have h481 : (2 * PASS_REFINE_WINDOW_SECONDS + 1) * 1000 = 481000 := by
      norm_num [PASS_REFINE_WINDOW_SECONDS]
    have h481b : (2 * PASS_REFINE_WINDOW_SECONDS + 1) * (PASS_REFINE_STEP_SECONDS * 1000) =
        481000 := by
      norm_num [PASS_REFINE_WINDOW_SECONDS, PASS_REFINE_STEP_SECONDS]
    rw [h481] at hw
    rw [h481b]
    omega
  · -- no earlier qualifying sample
    intro v dv ⟨k3, hk3⟩ hvlt hdv
    have hvs : RefineSampled (refineWindowFor now endT u) v := by
      refine (refineSampled_iff _ _).mpr ⟨⟨k3, hk3⟩, ?_⟩
      exact le_of_lt (lt_of_lt_of_le hvlt hle)
    exact hmin v dv hvs hvlt hdv

theorem evalDist_const100 (t : Nat) :
    evalDist trigConst100 groundConst targetOrigin t = some (6371 / 50) := by
  simp only [evalDist, groundConst, haversineDistanceKm, trigConst100, targetOrigin,
    normalizeLngQ_zero]
  norm_num

theorem evalDist_hitConst (t : Nat) :
    evalDist trigConstHit groundConst targetOrigin t = some 1 := by
  simp only [evalDist, groundConst, haversineDistanceKm, trigConstHit, targetOrigin,
    normalizeLngQ_zero]
  norm_num

theorem nextPassPrediction_nohit (T : TrigOps) (g : Nat → Option GeoPoint)
    (target : GeoPoint) (passThresholdKm : ℚ) (now : Nat) (hnow : 0 < now)
    (hnohit : ∀ u d, CoarseSampled now u → evalDist T g target u = some d →
      PASS_THRESHOLD_COARSE_KM < d) :
    ((∀ u, CoarseSampled now u → evalDist T g target u = none) →
      nextPassPrediction T g target passThresholdKm now = none) ∧
    (∀ u0 d0, CoarseSampled now u0 → evalDist T g target u0 = some d0 →
      ∃ u1 d1, nextPassPrediction T g target passThresholdKm now = some ⟨u1, d1, false⟩ ∧
        CoarseSampled now u1 ∧ evalDist T g target u1 = some d1 ∧
        ∀ u d, CoarseSampled now u → evalDist T g target u = some d → d1 ≤ d) := by
  have hsuf : now + PASS_LOOKAHEAD_MINUTES * 60 * 1000 <
      now + (PASS_LOOKAHEAD_MINUTES * 60 * 1000 / (PASS_COARSE_STEP_SECONDS * 1000) + 1) *
        (PASS_COARSE_STEP_SECONDS * 1000) := by
    norm_num [PASS_LOOKAHEAD_MINUTES, PASS_COARSE_STEP_SECONDS]
  have hmem : ∀ u, u ∈ sampleTimes (PASS_COARSE_STEP_SECONDS * 1000)
      (now + PASS_LOOKAHEAD_MINUTES * 60 * 1000)
      (PASS_LOOKAHEAD_MINUTES * 60 * 1000 / (PASS_COARSE_STEP_SECONDS * 1000) + 1) now ↔
      CoarseSampled now u := by
    intro u
    rw [mem_sampleTimes _ _ _ now u hsuf, coarseSampled_iff]
  have hclean2 : ∀ u d, (∃ k, u = now + k * (PASS_COARSE_STEP_SECONDS * 1000)) →
      u ≤ now + PASS_LOOKAHEAD_MINUTES * 60 * 1000 →
      evalDist T g target u = some d → PASS_THRESHOLD_COARSE_KM < d :=
    fun u d hk hle hd => hnohit u d ((coarseSampled_iff now u).mpr ⟨hk, hle⟩) hd
  have hrun := coarseLoop_clean T g target now (now + PASS_LOOKAHEAD_MINUTES * 60 * 1000)
    (PASS_LOOKAHEAD_MINUTES * 60 * 1000 / (PASS_COARSE_STEP_SECONDS * 1000) + 1) now none
    hclean2
  constructor
  · intro hall
    have hfold := bestFold_none T g target _ (fun u hu => hall u ((hmem u).mp hu))
    simp only [nextPassPrediction]
    rw [hrun, hfold]
    rfl
  · intro u0 d0 hs0 hd0
    obtain ⟨b1, hfold1, hmin1⟩ := bestFold_min T g target _ none u0 d0 ((hmem u0).mpr hs0) hd0
    rcases bestFold_source T g target (sampleTimes (PASS_COARSE_STEP_SECONDS * 1000)
        (now + PASS_LOOKAHEAD_MINUTES * 60 * 1000)
        (PASS_LOOKAHEAD_MINUTES * 60 * 1000 / (PASS_COARSE_STEP_SECONDS * 1000) + 1) now) none
      with hsrc | ⟨u1, hu1, d1, hd1, hfold2⟩
    · rw [hsrc] at hfold1
      exact absurd hfold1 (by simp)
    · have hu1s : CoarseSampled now u1 := (hmem u1).mp hu1
      have hne : ((⟨d1, u1⟩ : Best)).time ≠ 0 := by
        have h1 : now ≤ u1 := hu1s.1
        show u1 ≠ 0
        omega
      refine ⟨u1, d1, ?_, hu1s, hd1, ?_⟩
      · simp only [nextPassPrediction]
        rw [hrun, hfold2]
        exact fallbackPrediction_eq ⟨d1, u1⟩ hne
      · intro u d hs hd
        obtain ⟨b2, hfold3, hle2⟩ := bestFold_min T g target _ none u d ((hmem u).mpr hs) hd
        rw [hfold2] at hfold3
        injection hfold3 with h
        rw [← h] at hle2
        exact hle2

/-- C5: with a positive clock and no coarse sample within the coarse
detection threshold, the predictor returns the globally closest sample of
the coarse scan with `thresholdHit = false` and its minimum distance, and
returns null when no sample could be computed at all over the window. -/
theorem claim_C5 (T : TrigOps) (g : Nat → Option GeoPoint) (target : GeoPoint)
    (passThresholdKm : ℚ) (now : Nat) (hnow : 0 < now)
    (hnohit : ∀ u d, CoarseSampled now u → evalDist T g target u = some d →
      PASS_THRESHOLD_COARSE_KM < d) :
    ((∀ u, CoarseSampled now u → evalDist T g target u = none) →
      nextPassPrediction T g target passThresholdKm now = none) ∧
    (∀ u0 d0, CoarseSampled now u0 → evalDist T g target u0 = some d0 →
      ∃ u1 d1, nextPassPrediction T g target passThresholdKm now = some ⟨u1, d1, false⟩ ∧
        CoarseSampled now u1 ∧ evalDist T g target u1 = some d1 ∧
        ∀ u d, CoarseSampled now u → evalDist T g target u = some d → d1 ≤ d) :=
  nextPassPrediction_nohit T g target passThresholdKm now hnow hnohit

/-- C5 witness: the fallback theorem applied to a model at constant distance
127.42 km (above the 75 km coarse threshold) from the target. -/
theorem claim_C5_witness :
    ∃ u1 d1, nextPassPrediction trigConst100 groundConst targetOrigin 500 1000 =
        some ⟨u1, d1, false⟩ ∧
      CoarseSampled 1000 u1 ∧ evalDist trigConst100 groundConst targetOrigin u1 = some d1 ∧
      ∀ u d, CoarseSampled 1000 u → evalDist trigConst100 groundConst targetOrigin u = some d →
        d1 ≤ d := by
  have h := claim_C5 trigConst100 groundConst targetOrigin 500 1000 (by norm_num)
    (fun u d _ hd => by
      rw [evalDist_const100] at hd
      injection hd with h2
      rw [← h2]
      norm_num [PASS_THRESHOLD_COARSE_KM])
  exact h.2 1000 (6371 / 50)
    (by norm_num [CoarseSampled, PASS_LOOKAHEAD_MINUTES, PASS_COARSE_STEP_SECONDS])
    (evalDist_const100 1000)

theorem sampleTimes_succ (step endT fuel t : Nat) :
    sampleTimes step endT (fuel + 1) t =
      if t ≤ endT then t :: sampleTimes step endT fuel (t + step) else [] := rfl

theorem nextPass_const100_eval :
    nextPassPrediction trigConst100 groundConst targetOrigin 500 1000 =
      some ⟨1000, 6371 / 50, false⟩ := by
  have hclean2 : ∀ u d, (∃ k, u = 1000 + k * (PASS_COARSE_STEP_SECONDS * 1000)) →
      u ≤ 1000 + PASS_LOOKAHEAD_MINUTES * 60 * 1000 →
      evalDist trigConst100 groundConst targetOrigin u = some d →
      PASS_THRESHOLD_COARSE_KM < d := by
    intro u d _ _ hd
    rw [evalDist_const100] at hd
    injection hd with h2
    rw [← h2]
    norm_num [PASS_THRESHOLD_COARSE_KM]
  have hrun := coarseLoop_clean trigConst100 groundConst targetOrigin 1000
    (1000 + PASS_LOOKAHEAD_MINUTES * 60 * 1000)
    (PASS_LOOKAHEAD_MINUTES * 60 * 1000 / (PASS_COARSE_STEP_SECONDS * 1000) + 1) 1000 none
    hclean2
  have hcons : sampleTimes (PASS_COARSE_STEP_SECONDS * 1000)
      (1000 + PASS_LOOKAHEAD_MINUTES * 60 * 1000)
      (PASS_LOOKAHEAD_MINUTES * 60 * 1000 / (PASS_COARSE_STEP_SECONDS * 1000) + 1) 1000 =
      1000 :: sampleTimes (PASS_COARSE_STEP_SECONDS * 1000)
        (1000 + PASS_LOOKAHEAD_MINUTES * 60 * 1000)
        (PASS_LOOKAHEAD_MINUTES * 60 * 1000 / (PASS_COARSE_STEP_SECONDS * 1000))
        (1000 + PASS_COARSE_STEP_SECONDS * 1000) := by
    rw [sampleTimes_succ, if_pos (Nat.le_add_right 1000 _)]
  have hfold : bestFold trigConst100 groundConst targetOrigin
      (sampleTimes (PASS_COARSE_STEP_SECONDS * 1000)
        (1000 + PASS_LOOKAHEAD_MINUTES * 60 * 1000)
        (PASS_LOOKAHEAD_MINUTES * 60 * 1000 / (PASS_COARSE_STEP_SECONDS * 1000) + 1) 1000)
      none = some ⟨6371 / 50, 1000⟩ := by
    rw [hcons]
    exact bestFold_const trigConst100 groundConst targetOrigin (6371 / 50) _ 1000
      (fun v _ => evalDist_const100 v)
  simp only [nextPassPrediction]
  rw [hrun, hfold]
  exact fallbackPrediction_eq ⟨6371 / 50, 1000⟩ (by norm_num)

/-- C1 counterexample: with a target kept at constant distance 127.42 km
(above the 75 km coarse threshold but within the configured threshold of
500 km, a legal slider value), the predictor returns its globally closest
sample — a sample within the configured threshold — yet with
`thresholdHit = false`, refuting "thresholdHit = true exactly when the
search found a sample within the configured proximity threshold". -/
theorem claim_C1_counterexample :
    nextPassPrediction trigConst100 groundConst targetOrigin 500 1000 =
      some ⟨1000, 6371 / 50, false⟩ ∧
    CoarseSampled 1000 1000 ∧
    evalDist trigConst100 groundConst targetOrigin 1000 = some (6371 / 50) ∧
    ((6371 : ℚ) / 50 ≤ 500) :=
  ⟨nextPass_const100_eval,
    by norm_num [CoarseSampled, PASS_LOOKAHEAD_MINUTES, PASS_COARSE_STEP_SECONDS],
    evalDist_const100 1000, by norm_num⟩

/-- C6: when a first coarse hit exists and the refinement window around it
contains a sample within the configured threshold, the predictor returns
the earliest qualifying sampled instant of the window with
`thresholdHit = true` (not the globally minimum-distance sample). -/
theorem claim_C6 (T : TrigOps) (g : Nat → Option GeoPoint) (target : GeoPoint)
    (passThresholdKm : ℚ) (now u t1 : Nat) (d1 : ℚ)
    (hfirst : FirstCoarseHit T g target now u)
    (hq1 : RefineSampled
      (refineWindowFor now (now + PASS_LOOKAHEAD_MINUTES * 60 * 1000) u) t1)
    (hq2 : evalDist T g target t1 = some d1) (hq3 : d1 ≤ passThresholdKm) :
    ∃ t0 d0, nextPassPrediction T g target passThresholdKm now = some ⟨t0, d0, true⟩ ∧
      RefineSampled (refineWindowFor now (now + PASS_LOOKAHEAD_MINUTES * 60 * 1000) u) t0 ∧
      evalDist T g target t0 = some d0 ∧ d0 ≤ passThresholdKm ∧
      ∀ t d, RefineSampled
          (refineWindowFor now (now + PASS_LOOKAHEAD_MINUTES * 60 * 1000) u) t →
        t < t0 → evalDist T g target t = some d → passThresholdKm < d := by
  obtain ⟨dh, hdh, hdh75⟩ := hfirst.2.1
  obtain ⟨⟨k, hk⟩, hle⟩ := (coarseSampled_iff now u).mp hfirst.1
  have hsufU : u < now +
      (PASS_LOOKAHEAD_MINUTES * 60 * 1000 / (PASS_COARSE_STEP_SECONDS * 1000) + 1) *
        (PASS_COARSE_STEP_SECONDS * 1000) := by
    have h1 : now + PASS_LOOKAHEAD_MINUTES * 60 * 1000 < now +
        (PASS_LOOKAHEAD_MINUTES * 60 * 1000 / (PASS_COARSE_STEP_SECONDS * 1000) + 1) *
          (PASS_COARSE_STEP_SECONDS * 1000) := by
      norm_num [PASS_LOOKAHEAD_MINUTES, PASS_COARSE_STEP_SECONDS]
    omega
  have hcleank : ∀ v dv, (∃ k3, v = now + k3 * (PASS_COARSE_STEP_SECONDS * 1000)) → v < u →
      evalDist T g target v = some dv → PASS_THRESHOLD_COARSE_KM < dv := by
    rintro v dv ⟨k3, hk3⟩ hvlt hdv
    exact hfirst.2.2 v dv
      ((coarseSampled_iff now v).mpr ⟨⟨k3, hk3⟩, le_of_lt (lt_of_lt_of_le hvlt hle)⟩) hvlt hdv
  obtain ⟨best1, hcl⟩ := coarseLoop_hit T g target now
    (now + PASS_LOOKAHEAD_MINUTES * 60 * 1000)
    (PASS_LOOKAHEAD_MINUTES * 60 * 1000 / (PASS_COARSE_STEP_SECONDS * 1000) + 1) now none u dh
    ⟨k, hk⟩ hle hsufU hdh hdh75 hcleank
  obtain ⟨t0, d0, hrun2, hs0, hd0, hdle0, hmin0⟩ := refine_window_run T g target
    passThresholdKm now (now + PASS_LOOKAHEAD_MINUTES * 60 * 1000) u t1 d1 hq1 hq2 hq3
    best1 none
  refine ⟨t0, d0, ?_, hs0, hd0, hdle0, hmin0⟩
  simp only [nextPassPrediction]
  rw [hcl]
  dsimp only
  rw [hrun2]

/-- C6 witness: a model whose ground track is within 1 km of the target at
every instant hits the coarse threshold at the first sample and qualifies
immediately in the refinement window. -/
theorem claim_C6_witness :
    ∃ t0 d0, nextPassPrediction trigConstHit groundConst targetOrigin 5 1000 =
        some ⟨t0, d0, true⟩ ∧
      RefineSampled (refineWindowFor 1000 (1000 + PASS_LOOKAHEAD_MINUTES * 60 * 1000) 1000)
        t0 ∧
      evalDist trigConstHit groundConst targetOrigin t0 = some d0 ∧ d0 ≤ 5 ∧
      ∀ t d, RefineSampled
          (refineWindowFor 1000 (1000 + PASS_LOOKAHEAD_MINUTES * 60 * 1000) 1000) t →
        t < t0 → evalDist trigConstHit groundConst targetOrigin t = some d → 5 < d := by
  have hfirst : FirstCoarseHit trigConstHit groundConst targetOrigin 1000 1000 := by
    refine ⟨?_, ⟨1, evalDist_hitConst 1000, by norm_num [PASS_THRESHOLD_COARSE_KM]⟩, ?_⟩
    · norm_num [CoarseSampled, PASS_LOOKAHEAD_MINUTES, PASS_COARSE_STEP_SECONDS]
    · intro v d hs hvlt _
      exact absurd hvlt (not_lt.mpr hs.1)
  have hq1 : RefineSampled
      (refineWindowFor 1000 (1000 + PASS_LOOKAHEAD_MINUTES * 60 * 1000) 1000) 1000 := by
    refine (refineSampled_iff _ _).mpr ⟨⟨0, ?_⟩, ?_⟩ <;>
      norm_num [refineWindowFor, PASS_REFINE_WINDOW_SECONDS, PASS_LOOKAHEAD_MINUTES]
  exact claim_C6 trigConstHit groundConst targetOrigin 5 1000 1000 1000 1 hfirst hq1
    (evalDist_hitConst 1000) (by norm_num)

/-- C1 (amended): for a positive clock, a returned prediction has
`thresholdHit = true` exactly when the coarse scan had a first sample
within the 75 km coarse detection threshold and the refinement window
around it contains a sample within the configured threshold.  In the
fallback (no coarse hit anywhere) the prediction always carries
`thresholdHit = false`, even when its sample is within a configured
threshold larger than the coarse one — see the counterexample. -/
theorem claim_C1 (T : TrigOps) (g : Nat → Option GeoPoint) (target : GeoPoint)
    (passThresholdKm : ℚ) (now : Nat) (p : PassPrediction)
    (hp : nextPassPrediction T g target passThresholdKm now = some p) :
    (p.thresholdHit = true ↔
      ∃ u, FirstCoarseHit T g target now u ∧
        ∃ t d, RefineSampled
            (refineWindowFor now (now + PASS_LOOKAHEAD_MINUTES * 60 * 1000) u) t ∧
          evalDist T g target t = some d ∧ d ≤ passThresholdKm) := by
  simp only [nextPassPrediction] at hp
  rcases hcl : coarseLoop T g target now (now + PASS_LOOKAHEAD_MINUTES * 60 * 1000)
      (PASS_LOOKAHEAD_MINUTES * 60 * 1000 / (PASS_COARSE_STEP_SECONDS * 1000) + 1) now none
    with ⟨b, wopt⟩
  rw [hcl] at hp
  have hsufU : ∀ v, v ≤ now + PASS_LOOKAHEAD_MINUTES * 60 * 1000 →
      v < now +
        (PASS_LOOKAHEAD_MINUTES * 60 * 1000 / (PASS_COARSE_STEP_SECONDS * 1000) + 1) *
          (PASS_COARSE_STEP_SECONDS * 1000) := by
    intro v hv
    have h1 : now + PASS_LOOKAHEAD_MINUTES * 60 * 1000 < now +
        (PASS_LOOKAHEAD_MINUTES * 60 * 1000 / (PASS_COARSE_STEP_SECONDS * 1000) + 1) *
          (PASS_COARSE_STEP_SECONDS * 1000) := by
      norm_num [PASS_LOOKAHEAD_MINUTES, PASS_COARSE_STEP_SECONDS]
    omega
  have hhit : ∀ u, FirstCoarseHit T g target now u → ∃ best1,
      coarseLoop T g target now (now + PASS_LOOKAHEAD_MINUTES * 60 * 1000)
        (PASS_LOOKAHEAD_MINUTES * 60 * 1000 / (PASS_COARSE_STEP_SECONDS * 1000) + 1) now
        none =
        (best1, some (refineWindowFor now (now + PASS_LOOKAHEAD_MINUTES * 60 * 1000) u)) := by
    intro u hfirst
    obtain ⟨dh, hdh, hdh75⟩ := hfirst.2.1
    obtain ⟨⟨k, hk⟩, hle⟩ := (coarseSampled_iff now u).mp hfirst.1
    refine coarseLoop_hit T g target now _ _ now none u dh ⟨k, hk⟩ hle (hsufU u hle) hdh
      hdh75 ?_
    rintro v dv ⟨k3, hk3⟩ hvlt hdv
    exact hfirst.2.2 v dv
      ((coarseSampled_iff now v).mpr ⟨⟨k3, hk3⟩, le_of_lt (lt_of_lt_of_le hvlt hle)⟩) hvlt hdv
  cases wopt with
  | none =>
    have hp2 : fallbackPrediction b = some p := hp
    have hfalse := fallbackPrediction_false b p hp2
    refine iff_of_false (by simp [hfalse]) ?_
    rintro ⟨u, hfirst, t, d, hsamp, hd, hdle⟩
    obtain ⟨best1, hcl2⟩ := hhit u hfirst
    rw [hcl] at hcl2
    injection hcl2 with h1 h2
    exact Option.noConfusion h2
  | some w =>
    have hp2 : (match refineLoop T g target passThresholdKm w.stop
        (2 * PASS_REFINE_WINDOW_SECONDS + 1) w.start b none with
      | Sum.inr q => some q
      | Sum.inl (best1, some br) =>
        if br.time = 0 then fallbackPrediction best1
        else some ⟨br.time, br.distance, decide (br.distance ≤ passThresholdKm)⟩
      | Sum.inl (best1, none) => fallbackPrediction best1) = some p := hp
    obtain ⟨u2, hfirst2, hw2⟩ := coarseLoop_inv T g target now
      (now + PASS_LOOKAHEAD_MINUTES * 60 * 1000) rfl
      (PASS_LOOKAHEAD_MINUTES * 60 * 1000 / (PASS_COARSE_STEP_SECONDS * 1000) + 1) now none
      b w hcl (le_refl now) ⟨0, by ring⟩
      (fun v dv hs hvlt _ => absurd hvlt (not_lt.mpr hs.1))
    rcases hrl : refineLoop T g target passThresholdKm w.stop
        (2 * PASS_REFINE_WINDOW_SECONDS + 1) w.start b none with bp | q
    · rw [hrl] at hp2
      have habs : ¬ ∃ u, FirstCoarseHit T g target now u ∧
          ∃ t d, RefineSampled
              (refineWindowFor now (now + PASS_LOOKAHEAD_MINUTES * 60 * 1000) u) t ∧
            evalDist T g target t = some d ∧ d ≤ passThresholdKm := by
        rintro ⟨u, hfirst, t, d, hsamp, hd, hdle⟩
        have huu : u2 = u := firstCoarseHit_unique T g target now u2 u hfirst2 hfirst
        obtain ⟨t0, d0, hrun2, _, _, _, _⟩ := refine_window_run T g target passThresholdKm
          now (now + PASS_LOOKAHEAD_MINUTES * 60 * 1000) u t d hsamp hd hdle b none
        rw [huu] at hw2
        rw [← hw2] at hrun2
        rw [hrl] at hrun2
        exact Sum.noConfusion hrun2
      rcases bp with ⟨b1, bropt⟩
      cases bropt with
      | none =>
        have hp3 : fallbackPrediction b1 = some p := hp2
        have hfalse := fallbackPrediction_false b1 p hp3
        exact iff_of_false (by simp [hfalse]) habs
      | some br =>
        have hgt := refineLoop_inl_bound T g target passThresholdKm w.stop _ _ b none b1 br
          hrl (Or.inl rfl)
        have hp3 : (if br.time = 0 then fallbackPrediction b1
            else some ⟨br.time, br.distance, decide (br.distance ≤ passThresholdKm)⟩) =
            some p := hp2
        split_ifs at hp3 with h0
        · have hfalse := fallbackPrediction_false b1 p hp3
          exact iff_of_false (by simp [hfalse]) habs
        · rw [Option.some.injEq] at hp3
          have hfalse : p.thresholdHit = false := by
            rw [← hp3]
            show decide (br.distance ≤ passThresholdKm) = false
            exact decide_eq_false (not_le.mpr hgt)
          exact iff_of_false (by simp [hfalse]) habs
    · rw [hrl] at hp2
      have hp3 : some q = some p := hp2
      rw [Option.some.injEq] at hp3
      obtain ⟨u', d', hq2, htu, hue, hk', hd', hdle'⟩ := refineLoop_inr_inv T g target
        passThresholdKm w.stop _ _ b none q hrl
      subst hp3
      refine iff_of_true (by rw [hq2]) ?_
      refine ⟨u2, hfirst2, u', d', ?_, hd', hdle'⟩
      have hs : RefineSampled w u' := (refineSampled_iff w u').mpr ⟨hk', hue⟩
      rw [← hw2]
      exact hs

theorem coarseLoop_succ (T : TrigOps) (g : Nat → Option GeoPoint) (target : GeoPoint)
    (now endT fuel t : Nat) (best : Option Best) :
    coarseLoop T g target now endT (fuel + 1) t best =
      if t ≤ endT then
        match evalDist T g target t with
        | none => coarseLoop T g target now endT fuel (t + PASS_COARSE_STEP_SECONDS * 1000)
            best
        | some d =>
          if d ≤ PASS_THRESHOLD_COARSE_KM then
            (updateBest best d t, some (refineWindowFor now endT t))
          else coarseLoop T g target now endT fuel (t + PASS_COARSE_STEP_SECONDS * 1000)
            (updateBest best d t)
      else (best, none) := rfl

theorem nextPass_hitConst_eval :
    nextPassPrediction trigConstHit groundConst targetOrigin 5 1000 =
      some ⟨1000, 1, true⟩ := by
  have hcl : coarseLoop trigConstHit groundConst targetOrigin 1000
      (1000 + PASS_LOOKAHEAD_MINUTES * 60 * 1000)
      (PASS_LOOKAHEAD_MINUTES * 60 * 1000 / (PASS_COARSE_STEP_SECONDS * 1000) + 1) 1000
      none =
      (some ⟨1, 1000⟩, some (refineWindowFor 1000
        (1000 + PASS_LOOKAHEAD_MINUTES * 60 * 1000) 1000)) := by
    rw [coarseLoop_succ, if_pos (Nat.le_add_right 1000 _), evalDist_hitConst 1000]
    dsimp only
    rw [if_pos (show (1 : ℚ) ≤ PASS_THRESHOLD_COARSE_KM from by
      norm_num [PASS_THRESHOLD_COARSE_KM])]
    rfl
  simp only [nextPassPrediction]
  rw [hcl]
  dsimp only
  have hrl : refineLoop trigConstHit groundConst targetOrigin 5
      (refineWindowFor 1000 (1000 + PASS_LOOKAHEAD_MINUTES * 60 * 1000) 1000).stop
      (2 * PASS_REFINE_WINDOW_SECONDS + 1)
      (refineWindowFor 1000 (1000 + PASS_LOOKAHEAD_MINUTES * 60 * 1000) 1000).start
      (some ⟨1, 1000⟩) none = Sum.inr ⟨1000, 1, true⟩ := by
    apply refineLoop_first trigConstHit groundConst targetOrigin 5 _ _ _ _ _ 1000 1 ?_ ?_ ?_
      (evalDist_hitConst 1000) (by norm_num) ?_
    · refine ⟨0, ?_⟩
      norm_num [refineWindowFor, PASS_REFINE_WINDOW_SECONDS]
    · norm_num [refineWindowFor, PASS_REFINE_WINDOW_SECONDS, PASS_LOOKAHEAD_MINUTES]
    · norm_num [refineWindowFor, PASS_REFINE_WINDOW_SECONDS, PASS_REFINE_STEP_SECONDS]
    · intro v dv hk hvlt hdv
      refine absurd hvlt (not_lt.mpr ?_)
      obtain ⟨k3, hk3⟩ := hk
      rw [hk3]
      have : (refineWindowFor 1000 (1000 + PASS_LOOKAHEAD_MINUTES * 60 * 1000) 1000).start =
          1000 := by
        norm_num [refineWindowFor, PASS_REFINE_WINDOW_SECONDS]
      rw [this]
      exact Nat.le_add_right _ _
  rw [hrl]

/-- C1 witness: the amended equivalence instantiated at a model that
qualifies at the very first sample. -/
theorem claim_C1_witness :
    ((⟨1000, 1, true⟩ : PassPrediction).thresholdHit = true ↔
      ∃ u, FirstCoarseHit trigConstHit groundConst targetOrigin 1000 u ∧
        ∃ t d, RefineSampled
            (refineWindowFor 1000 (1000 + PASS_LOOKAHEAD_MINUTES * 60 * 1000) u) t ∧
          evalDist trigConstHit groundConst targetOrigin t = some d ∧ d ≤ 5) :=
  claim_C1 trigConstHit groundConst targetOrigin 5 1000 ⟨1000, 1, true⟩ nextPass_hitConst_eval
